import Mathlib

/-!
Verification development for the BiG-SCAPE distance engine and batch
network-generation pipeline (`bigscape.py`).

Shallow embedding conventions:
* Python strings are modelled as `List Char` (`Ident`); string literals
  appear as `"...".data`.
* Python dictionaries keyed by strings are modelled as total functions;
  a missing key of an occurrence dictionary is modelled by the empty list
  (`BGCs[A][d]` raises `KeyError` exactly when `d` holds no occurrences),
  and a missing key of the alignment store by `Option`.
* Python `set` objects are modelled as deduplicated lists (`List.dedup`);
  iteration over a set becomes iteration over such a list.  All values
  computed from sets below are sums/cardinalities, which are independent
  of the iteration order the Python runtime would use.
* Python floats are modelled as `ℚ` (exact arithmetic); the only
  genuinely real-valued quantity, the `-log2` network score, is carried
  symbolically in rows and interpreted in `ℝ` inside the theorems.
* The external Munkres solver (`from munkres import Munkres`) is modelled
  by its contract: minimum total cost over one-to-one assignments of
  `min(m,n)` pairs of a rectangular cost matrix.
* The external `pairwise2.align.globalds` fallback aligner is an oracle
  field of the environment returning `Option` (`none` models the case
  where the fallback itself fails: missing fasta file or missing tag).
-/

/-- Identifiers (cluster names, domain names, sequence tags, class labels)
are Python strings, modelled as lists of characters. -/
abbrev Ident : Type := List Char

/-- Per-class weight vector `(J, DDS, AI, anchorboost)` from
`bgc_class_weight` in `bigscape.py`. -/
structure ClassWeights where
  Jaccardw : ℚ
  DDSw : ℚ
  AIw : ℚ
  anchorboost : ℚ

/-- The read-only global state consumed by the distance engine:
`anchor_domains`, `BGCs`, `AlignedDomainSequences`, `DomainList`,
`group_dct`, `bgc_class_weight` and the `metagenomic` flag, plus the
oracle for the external pairwise fallback aligner. -/
structure BsEnv where
  anchor_domains : List Ident
  BGCs : Ident → Ident → List Ident
  AlignedDomainSequences : Ident → Option (List Char)
  fallbackAlign : Ident → Ident → Option (List Char × List Char)
  metagenomic : Bool
  DomainList : Ident → List Ident
  group_dct : Ident → Ident × Ident
  bgc_class_weight : Ident → ClassWeights

/-- Python `domain.split(".")[0]`: the prefix of the identifier before the
first dot. -/
def domainBase (d : Ident) : Ident := d.takeWhile (fun c => c ≠ '.')

/-- Python `domain.split(".")[0] in anchor_domains`. -/
def isAnchor (env : BsEnv) (d : Ident) : Bool := (domainBase d) ∈ env.anchor_domains

/-- The `matches`/`gaps` accumulation loop of `cluster_distance`
(lines 465-471): walk the two aligned sequences position by position up
to the shorter length; a position with equal non-gap characters counts
as a match, a position where both characters are the gap `'-'` counts as
a gap, and positions with differing characters count as neither. -/
def matchesGaps : List Char → List Char → ℕ × ℕ
  | a :: as, b :: bs =>
    let mg := matchesGaps as bs
    if a = b then (if a ≠ '-' then (mg.1 + 1, mg.2) else (mg.1, mg.2 + 1)) else mg
  | _, _ => (0, 0)

/-- The `seq_length` used by the sequence-identity computation: the
common length, truncated to the shorter sequence (with a warning in the
source) when the two aligned lengths differ (lines 457-463). -/
def seqLengthOf (sA sB : List Char) : ℕ :=
  if sA.length ≠ sB.length then min sA.length sB.length else sA.length

/-- The denominator `seq_length - gaps` of the sequence-identity
fraction (line 472). -/
def identityDenom (sA sB : List Char) : ℕ :=
  seqLengthOf sA sB - (matchesGaps sA sB).2

/-- One cell of the `DistanceMatrix`:
`1 - matches / (seq_length - gaps)` (line 472). -/
def seqSim (sA sB : List Char) : ℚ :=
  1 - ((matchesGaps sA sB).1 : ℚ) / (((seqLengthOf sA sB) : ℚ) - ((matchesGaps sA sB).2 : ℚ))

/-- All injective functions `Fin m → Fin n`, as a finite set. -/
def injFuns (m n : ℕ) : Finset (Fin m → Fin n) :=
  Finset.univ.filter Function.Injective

lemma injFuns_nonempty {m n : ℕ} (h : m ≤ n) : (injFuns m n).Nonempty := by
  refine ⟨Fin.castLE h, ?_⟩
  simp [injFuns, Fin.castLE_injective h]

/-- Contract of the external Munkres (Hungarian) solver on an `m × n`
cost matrix: the minimum, over all one-to-one assignments of
`min(m,n)` pairs, of the total assigned cost.  (The `munkres` package
pads a rectangular matrix with zero-cost dummy cells and reports only
the marked cells inside the original matrix, which realises exactly this
minimum.) -/
def assignCost (m n : ℕ) (c : ℕ → ℕ → ℚ) : ℚ :=
  if h : 0 < m ∧ m ≤ n then
    (injFuns m n).inf' (injFuns_nonempty h.2) (fun f => ∑ i : Fin m, c i.val (f i).val)
  else if h2 : 0 < n ∧ n < m then
    (injFuns n m).inf' (injFuns_nonempty (le_of_lt h2.2)) (fun f => ∑ j : Fin n, c (f j).val j.val)
  else 0

/-- Resolution of the two aligned sequences for a pair of occurrence
tags (lines 422-451): use the alignment store when both tags are
present, otherwise fall back to the external pairwise aligner.  The
`.getD` default is never consulted on runs where the fallback succeeds;
the failing fallback is modelled separately by `alignFails`. -/
def resolvePair (env : BsEnv) (ta tb : Ident) : List Char × List Char :=
  match env.AlignedDomainSequences ta, env.AlignedDomainSequences tb with
  | some x, some y => (x, y)
  | _, _ => (env.fallbackAlign ta tb).getD ([], [])

/-- Result tuple of `cluster_distance`:
`(Distance, Jaccard, DDS, AI, DDS_non_anchor, DDS_anchor, S, S_anchor)`,
plus a flag modelling the "Negative distance detected!" diagnostic print
(lines 555-561). -/
structure DistResult where
  dist : ℚ
  jaccard : ℚ
  dds : ℚ
  ai : ℚ
  rDDSna : ℚ
  rDDSa : ℚ
  S : ℕ
  Sa : ℕ
  negFlag : Bool
deriving Repr

/-- The composite-distance step (lines 552-562):
`Distance = 1 - Jw*J - DDSw*DDS - AIw*AI`, clamped to `0` when negative;
the second component records whether the clamped value was below the
`-0.000001` diagnostic threshold. -/
def compositeDistance (w : ClassWeights) (J D A : ℚ) : ℚ × Bool :=
  let raw := 1 - (w.Jaccardw * J) - (w.DDSw * D) - (w.AIw * A)
  if raw < 0 then (0, decide (raw < -(1/1000000))) else (raw, false)

/-- Python `tuple(sorted([x, y]))` for two strings (line 536): the pair
in nondecreasing lexicographic order. -/
def mkOrderedPair (x y : Ident) : Ident × Ident := if y < x then (y, x) else (x, y)

/-- The set of unordered adjacent domain-type pairs of a domain list
(lines 534-540). -/
def adjacencyPairs (l : List Ident) : List (Ident × Ident) :=
  ((l.zip l.tail).map (fun p => mkOrderedPair p.1 p.2)).dedup

/-- The per-pair comparison state fixed by the (optional) metagenomic
canonicalization and windowing step (lines 267-361): the two records in
canonical order, their (possibly windowed) domain lists, the shared
domain-type set, and the occurrence-slice bounds per domain type. -/
structure PairSetup where
  A : Ident
  B : Ident
  A_domlist : List Ident
  B_domlist : List Ident
  intersect : List Ident
  Abot : Ident → ℕ
  Atop : Ident → ℕ
  Bbot : Ident → ℕ
  Btop : Ident → ℕ

/-- The window-selection loop of metagenomic mode (lines 326-332):
slide a window of the shorter record's length over the longer record's
raw domain list and keep the first offset maximizing the intersection
with the shorter record's domain-type set.  Returns the chosen offset
and the final `intersect` set (as a deduplicated list). -/
def bestWindow (setA tmpB : List Ident) (lengthA : ℕ) : ℕ × List Ident :=
  (List.range (tmpB.length - lengthA + 1)).foldl
    (fun acc i =>
      let tmpBset := ((tmpB.drop i).take lengthA).dedup
      let inter := setA.filter (fun d => d ∈ tmpBset)
      if acc.2.length < inter.length then (i, inter) else acc)
    (0, [])

/-- Construction of the `PairSetup` (lines 300-361).  In metagenomic
mode record `A` is the one with the strictly shorter domain list (`b`
wins ties, as in the source), the longer list is windowed by
`bestWindow`, and the slice bounds count occurrences before/inside the
window; otherwise the slices cover every occurrence. -/
def mkSetup (env : BsEnv) (a b : Ident) (a_domlist b_domlist : List Ident) : PairSetup :=
  if env.metagenomic then
    let A := if a_domlist.length < b_domlist.length then a else b
    let B := if a_domlist.length < b_domlist.length then b else a
    let A_domlist := if a_domlist.length < b_domlist.length then a_domlist else b_domlist
    let tmpB := if a_domlist.length < b_domlist.length then b_domlist else a_domlist
    let setA := A_domlist.dedup
    let lengthA := A_domlist.length
    let w := bestWindow setA tmpB lengthA
    let startB := w.1
    let B_domlist := (tmpB.drop startB).take lengthA
    { A := A, B := B, A_domlist := A_domlist, B_domlist := B_domlist,
      intersect := w.2,
      Abot := fun _ => 0, Atop := fun d => (env.BGCs A d).length,
      Bbot := fun d => (tmpB.take startB).count d,
      Btop := fun d => (tmpB.take startB).count d + B_domlist.count d }
  else
    { A := a, B := b, A_domlist := a_domlist, B_domlist := b_domlist,
      intersect := a_domlist.dedup.filter (fun d => d ∈ b_domlist.dedup),
      Abot := fun _ => 0, Atop := fun d => (env.BGCs a d).length,
      Bbot := fun _ => 0, Btop := fun d => (env.BGCs b d).length }

/-- The occurrence-tag of copy `i` of shared domain `d` on the `A` side
(line 415). -/
def tagA (env : BsEnv) (s : PairSetup) (d : Ident) (i : ℕ) : Ident :=
  (env.BGCs s.A d).getD (i + s.Abot d) []

/-- The occurrence-tag of copy `j` of shared domain `d` on the `B` side
(line 416). -/
def tagB (env : BsEnv) (s : PairSetup) (d : Ident) (j : ℕ) : Ident :=
  (env.BGCs s.B d).getD (j + s.Bbot d) []

/-- `sum_seq_dist` for one shared domain type (lines 403-487): the
copy-count excess `|nA - nB|` plus the minimum-cost assignment over the
sequence-identity cost matrix of the two occurrence slices. -/
def sumSeqDist (env : BsEnv) (s : PairSetup) (d : Ident) : ℚ :=
  let num_copies_a := s.Atop d - s.Abot d
  let num_copies_b := s.Btop d - s.Bbot d
  let cell := fun i j =>
    let p := resolvePair env (tagA env s d i) (tagB env s d j)
    seqSim p.1 p.2
  let accumulated_distance := assignCost num_copies_a num_copies_b cell
  |((num_copies_a : ℚ)) - ((num_copies_b : ℚ))| + accumulated_distance

/-- `normalization_element = max(num_copies_a, num_copies_b)` for one
shared domain type (line 488). -/
def normalizationElement (s : PairSetup) (d : Ident) : ℕ :=
  max (s.Atop d - s.Abot d) (s.Btop d - s.Bbot d)

/-- The occurrence list backing an unshared domain (lines 383-386): try
`BGCs[A][d]`, falling back to `BGCs[B][d]` on `KeyError` (modelled as
the empty list). -/
def unsharedOccurrences (env : BsEnv) (s : PairSetup) (d : Ident) : List Ident :=
  if (env.BGCs s.A d).isEmpty then env.BGCs s.B d else env.BGCs s.A d

/-- Jaccard index (line 366):
`len(intersect) / (len(setA) + len(setB) - len(intersect))`. -/
def jaccardOf (s : PairSetup) : ℚ :=
  (s.intersect.length : ℚ)
    / ((s.A_domlist.dedup.length : ℚ) + (s.B_domlist.dedup.length : ℚ) - (s.intersect.length : ℚ))

/-- Case 1 of the DDS loop (lines 379-395): total occurrence count of
the unshared domains with the given anchor flag. -/
def unsharedSum (env : BsEnv) (s : PairSetup) (want : Bool) : ℕ :=
  ((((s.A_domlist.dedup.filter (fun d => d ∉ s.B_domlist.dedup))
      ++ (s.B_domlist.dedup.filter (fun d => d ∉ s.A_domlist.dedup))).filter
        (fun d => isAnchor env d = want)).map
    (fun d => (unsharedOccurrences env s d).length)).sum

/-- Cases 2 and 3 of the DDS loop (lines 399-495): total
`sum_seq_dist` over the shared domains with the given anchor flag. -/
def sharedSumQ (env : BsEnv) (s : PairSetup) (want : Bool) : ℚ :=
  ((s.intersect.filter (fun d => isAnchor env d = want)).map (sumSeqDist env s)).sum

/-- Total of `normalization_element` over the shared domains with the
given anchor flag (lines 488-494). -/
def sharedSumN (env : BsEnv) (s : PairSetup) (want : Bool) : ℕ :=
  ((s.intersect.filter (fun d => isAnchor env d = want)).map (normalizationElement s)).sum

/-- `domain_difference` / `domain_difference_anchor` accumulator
(`want = false` selects the non-anchor accumulator). -/
def domainDifference (env : BsEnv) (s : PairSetup) (want : Bool) : ℚ :=
  (unsharedSum env s want : ℚ) + sharedSumQ env s want

/-- `S` / `S_anchor` accumulator. -/
def normTotal (env : BsEnv) (s : PairSetup) (want : Bool) : ℕ :=
  unsharedSum env s want + sharedSumN env s want

/-- The three-case anchor blending of the DDS (lines 498-523), returning
`(blended difference, DDS_non_anchor, DDS_anchor)`. -/
def ddsParts (env : BsEnv) (w : ClassWeights) (s : PairSetup) : ℚ × ℚ × ℚ :=
  let domain_difference := domainDifference env s false
  let S := normTotal env s false
  let domain_difference_anchor := domainDifference env s true
  let S_anchor := normTotal env s true
  if S_anchor ≠ 0 ∧ S ≠ 0 then
    let DDS_non_anchor := domain_difference / (S : ℚ)
    let DDS_anchor := domain_difference_anchor / (S_anchor : ℚ)
    let non_anchor_prct : ℚ := (S : ℚ) / ((S : ℚ) + (S_anchor : ℚ))
    let anchor_prct : ℚ := (S_anchor : ℚ) / ((S : ℚ) + (S_anchor : ℚ))
    let non_anchor_weight := non_anchor_prct / (anchor_prct * w.anchorboost + non_anchor_prct)
    let anchor_weight := anchor_prct * w.anchorboost / (anchor_prct * w.anchorboost + non_anchor_prct)
    (non_anchor_weight * DDS_non_anchor + anchor_weight * DDS_anchor, DDS_non_anchor, DDS_anchor)
  else if S_anchor = 0 then
    (domain_difference / (S : ℚ), domain_difference / (S : ℚ), 0)
  else
    (domain_difference_anchor / (S_anchor : ℚ), 0, domain_difference_anchor / (S_anchor : ℚ))

/-- Adjacency index (lines 528-543). -/
def aiOf (s : PairSetup) : ℚ :=
  if s.A_domlist.length < 2 ∨ s.B_domlist.length < 2 then 0
  else
    let setA_pairs := adjacencyPairs s.A_domlist
    let setB_pairs := adjacencyPairs s.B_domlist
    ((setA_pairs.filter (fun p => p ∈ setB_pairs)).length : ℚ) /
      ((setA_pairs ++ setB_pairs.filter (fun p => p ∉ setA_pairs)).length : ℚ)

/-- Main branch of `cluster_distance` (lines 365-564): Jaccard index,
DDS with the three-case anchor blending, adjacency index and clamped
composite distance, computed from a `PairSetup`. -/
def distMain (env : BsEnv) (w : ClassWeights) (s : PairSetup) : DistResult :=
  let Jaccard := jaccardOf s
  let DDS : ℚ := 1 - (ddsParts env w s).1
  let AI := aiOf s
  let c := compositeDistance w Jaccard DDS AI
  { dist := c.1, jaccard := Jaccard, dds := DDS, ai := AI,
    rDDSna := (ddsParts env w s).2.1, rDDSa := (ddsParts env w s).2.2,
    S := normTotal env s false, Sa := normTotal env s true, negFlag := c.2 }

/-- The record swap of a comparison state: roles of `A` and `B`
exchanged (`intersect` is re-derived from the swapped lists, as the
source would). -/
def PairSetup.swap (s : PairSetup) : PairSetup :=
  { A := s.B, B := s.A, A_domlist := s.B_domlist, B_domlist := s.A_domlist,
    intersect := s.B_domlist.dedup.filter (fun d => d ∈ s.A_domlist.dedup),
    Abot := s.Bbot, Atop := s.Btop, Bbot := s.Abot, Btop := s.Atop }

/-- `cluster_distance` (lines 260-564): weight lookup, the early
disjoint-pair return (lines 280-297), and otherwise the main branch on
the (possibly metagenomic) `PairSetup`. -/
def cluster_distance (env : BsEnv) (a b : Ident) (a_domlist b_domlist : List Ident)
    (bgc_class : Ident) : DistResult :=
  let w := env.bgc_class_weight bgc_class
  let setA := a_domlist.dedup
  let setB := b_domlist.dedup
  if (setA.filter (fun d => d ∈ setB)).isEmpty then
    let S : ℕ :=
      ((setA.filter (fun d => !(isAnchor env d))).map (fun d => (env.BGCs a d).length)).sum
      + ((setB.filter (fun d => !(isAnchor env d))).map (fun d => (env.BGCs b d).length)).sum
    let Sa : ℕ :=
      ((setA.filter (fun d => isAnchor env d)).map (fun d => (env.BGCs a d).length)).sum
      + ((setB.filter (fun d => isAnchor env d)).map (fun d => (env.BGCs b d).length)).sum
    { dist := 1, jaccard := 0, dds := 0, ai := 0, rDDSna := 1, rDDSa := 1,
      S := S, Sa := Sa, negFlag := false }
  else
    distMain env w (mkSetup env a b a_domlist b_domlist)

/-- Detection of the unrecoverable alignment failure inside the DDS loop
(lines 422-451): some cost-matrix cell of some shared domain needs an
aligned sequence missing from the store, and the fallback pairwise
alignment for that cell also fails (missing fasta file or missing tag).
In Python this raises an uncaught exception. -/
def alignFails (env : BsEnv) (s : PairSetup) : Bool :=
  s.intersect.any (fun d =>
    (List.range (s.Atop d - s.Abot d)).any (fun i =>
      (List.range (s.Btop d - s.Bbot d)).any (fun j =>
        ((env.AlignedDomainSequences (tagA env s d i)).isNone
          || (env.AlignedDomainSequences (tagB env s d j)).isNone)
        && (env.fallbackAlign (tagA env s d i) (tagB env s d j)).isNone)))

/-- A field of a network row: Python mixes strings and floats in one
list.  The `-log2` score field is represented symbolically: the
constructor `score a` stands for the float `float("inf")` when
`a = none` and for `-log(d, 2)` (that is, `-(Real.logb 2 d)`) when
`a = some d`.  Theorems about the score state its denoted real value
explicitly. -/
inductive NetVal where
  | s : Ident → NetVal
  | q : ℚ → NetVal
  | score : Option ℚ → NetVal
deriving DecidableEq

/-- The argument of the `-log2` score computation of
`generate_dist_matrix` (lines 240-249): `none` (denoting
`float("inf")`) when the distance is zero, otherwise `some dist`
(denoting `-log(dist, 2)`). -/
def logscoreArg (dist : ℚ) : Option ℚ :=
  if dist = 0 then none else some dist

/-- `generate_dist_matrix` (lines 204-257): the degenerate sentinel row
(lines 222-235, string literals exactly as in the source, without the
`bgc_class` element) when either domain list is empty, otherwise the
17-element network row around `cluster_distance`. -/
def generate_dist_matrix (env : BsEnv) (parms : Ident × Ident × Ident) : List NetVal :=
  let c1 := parms.1
  let c2 := parms.2.1
  let bgc_class := parms.2.2
  let la := env.DomainList c1
  let lb := env.DomainList c2
  if la.length = 0 ∨ lb.length = 0 then
    [.s c1, .s c2, .s (env.group_dct c1).1, .s (env.group_dct c1).2,
     .s (env.group_dct c2).1, .s (env.group_dct c2).2,
     .s "0.0".data, .s "1.0".data, .s "0.0".data, .s "0.0".data, .s "0.0".data, .s "0.0".data,
     .s "1.0".data, .s "1.0".data, .s "1".data, .s "1".data]
  else
    let r := cluster_distance env c1 c2 la lb bgc_class
    [.s c1, .s c2, .s bgc_class, .s (env.group_dct c1).1, .s (env.group_dct c1).2,
     .s (env.group_dct c2).1, .s (env.group_dct c2).2,
     .score (logscoreArg r.dist), .q r.dist, .q ((1 - r.dist) ^ 2),
     .q r.jaccard, .q r.dds, .q r.ai, .q r.rDDSna, .q r.rDDSa, .q (r.S : ℚ), .q (r.Sa : ℚ)]

/-- The dictionary key `generate_network` extracts from a row
(line 199): `row[0], row[1], row[2]`. -/
def netKey (row : List NetVal) : NetVal × NetVal × NetVal :=
  (row.getD 0 (.s []), row.getD 1 (.s []), row.getD 2 (.s []))

/-- `generate_network` (lines 181-201): map `generate_dist_matrix` over
the pairs and key each row by its first three elements, the value being
`row[3:]`. -/
def generate_network (env : BsEnv) (cluster_pairs : List (Ident × Ident × Ident)) :
    List ((NetVal × NetVal × NetVal) × List NetVal) :=
  (cluster_pairs.map (generate_dist_matrix env)).map (fun row => (netKey row, row.drop 3))

/-- Sequential effectful map over `Except`: evaluate each element in
order, propagating the first raised exception (the observable behaviour
of `pool.map` when a worker raises). -/
def exceptMapList {α β ε : Type} (f : α → Except ε β) : List α → Except ε (List β)
  | [] => .ok []
  | a :: l => do
    let b ← f a
    let bs ← exceptMapList f l
    return b :: bs

/-- `generate_dist_matrix` with its failure behaviour made explicit: an
unrecoverable alignment failure inside `cluster_distance` raises an
exception (`Except.error`) instead of producing a row.  The degenerate
empty-domain-list case never reaches the DDS loop and stays a sentinel
row. -/
def generate_dist_matrix_E (env : BsEnv) (parms : Ident × Ident × Ident) :
    Except Ident (List NetVal) :=
  let la := env.DomainList parms.1
  let lb := env.DomainList parms.2.1
  if la.length = 0 ∨ lb.length = 0 then .ok (generate_dist_matrix env parms)
  else if alignFails env (mkSetup env parms.1 parms.2.1 la lb) then
    .error "alignment failure".data
  else .ok (generate_dist_matrix env parms)

/-- `generate_network` with failure behaviour: `pool.map` propagates a
worker exception, so one failing pair aborts the whole invocation and
no result table is produced. -/
def generate_network_E (env : BsEnv) (cluster_pairs : List (Ident × Ident × Ident)) :
    Except Ident (List ((NetVal × NetVal × NetVal) × List NetVal)) := do
  let rows ← exceptMapList (generate_dist_matrix_E env) cluster_pairs
  return rows.map (fun row => (netKey row, row.drop 3))

/-- The cutoff-removal loop of `__main__` (lines 924-926):
`for c in cutoff_list: if c <= 0.0: cutoff_list.remove(c)`.
Python's list iterator advances an index each step while `remove`
mutates the list in place, which this function reproduces exactly. -/
def cutoffRemoveLoop (fuel : ℕ) (l : List ℚ) (i : ℕ) : List ℚ :=
  match fuel with
  | 0 => l
  | fuel + 1 =>
    if h : i < l.length then
      if l.get ⟨i, h⟩ ≤ 0 then cutoffRemoveLoop fuel (l.erase (l.get ⟨i, h⟩)) (i + 1)
      else cutoffRemoveLoop fuel l (i + 1)
    else l

/-- The cutoff list actually used to write networks (lines 923-929):
the removal loop over the parsed user values, then the compulsory
`1.0`.  The loop runs at most `length` iterations (the index grows each
step while the list never grows), so `length` fuel makes the structural
recursion exact. -/
def cutoff_list_used (cutoffs : List ℚ) : List ℚ :=
  let l := cutoffRemoveLoop cutoffs.length cutoffs 0
  if (1 : ℚ) ∈ l then l else l ++ [1]

/-- Result-table keys: `(record A, record B, class label)`. -/
abbrev NetKeyT : Type := Ident × Ident × Ident

/-- Python dictionary lookup on an association-list model of a result
table. -/
def dictLookup {V : Type} (T : List (NetKeyT × V)) (k : NetKeyT) : Option V :=
  (T.find? (fun e => e.1 = k)).map (fun e => e.2)

/-- The per-sample copy loop of the mix reuse (lines 1455-1456):
`network_matrix_sample[pair[0], pair[1], "mix"] = network_matrix_mix[pair[0], pair[1], "mix"]`
for every pair of the sample; a key missing from the mix table raises
`KeyError`. -/
def copySamplePairs {V : Type} (mix : List (NetKeyT × V)) (pairs : List (Ident × Ident)) :
    Except Ident (List (NetKeyT × V)) :=
  exceptMapList (fun p =>
    match dictLookup mix (p.1, p.2, "mix".data) with
    | some v => .ok ((p.1, p.2, "mix".data), v)
    | none => .error "KeyError".data) pairs

/-- The per-sample mix-reuse loop of `__main__` (lines 1437-1457) in the
`options_all && options_mix` configuration: each sample copies its
pairs out of the current mix table, after which the source executes
`network_matrix_mix.clear()` (line 1457) before the next sample is
processed.  A `KeyError` aborts the run. -/
def sampleMixReuse {V : Type} (mix : List (NetKeyT × V)) :
    List (List (Ident × Ident)) → Except Ident (List (List (NetKeyT × V)))
  | [] => .ok []
  | sample :: rest => do
    let t ← copySamplePairs mix sample
    let ts ← sampleMixReuse ([] : List (NetKeyT × V)) rest
    return t :: ts

/-- Match predicate of one alignment column: equal non-gap characters. -/
def matchPred (p : Char × Char) : Bool := p.1 = p.2 ∧ p.1 ≠ '-'

/-- Gap predicate of one alignment column: both characters are gaps. -/
def gapPred (p : Char × Char) : Bool := p.1 = p.2 ∧ p.1 = '-'

/-- Concrete fixture for the sample-reuse bug: the all-records mix
table holding the two pairs of two samples. -/
def mixTableEx : List (NetKeyT × ℚ) :=
  [(("c1".data, "c2".data, "mix".data), 7), (("c3".data, "c4".data, "mix".data), 9)]

/-- Concrete fixture: two samples, each inducing one pair. -/
def samplesEx : List (List (Ident × Ident)) :=
  [[("c1".data, "c2".data)], [("c3".data, "c4".data)]]

/-- Concrete fixture for the network-row claims: two single-domain
records sharing domain type `PX` with identical aligned sequences, and
a weight vector `(3/4, 0, 0, 1)` forcing raw distance `1/4`. -/
def envC2 : BsEnv :=
  { anchor_domains := []
    BGCs := fun c d =>
      if c = "c1".data ∧ d = "PX".data then ["t1".data]
      else if c = "c2".data ∧ d = "PX".data then ["t2".data] else []
    AlignedDomainSequences := fun t =>
      if t = "t1".data ∨ t = "t2".data then some ['M'] else none
    fallbackAlign := fun _ _ => none
    metagenomic := false
    DomainList := fun c =>
      if c = "c1".data ∨ c = "c2".data then ["PX".data] else []
    group_dct := fun _ => ("grp".data, "desc".data)
    bgc_class_weight := fun _ => ⟨3/4, 0, 0, 1⟩ }

/-- The class weight table `bgc_class_weight` (lines 1023-1040), with
the Python float literals as exact rationals; a class absent from the
table (a `KeyError` in Python) is mapped to the zero vector. -/
def bgc_class_weight_table : Ident → ClassWeights := fun cls =>
  if cls = "PKSI".data then ⟨11/50, 19/25, 1/50, 1⟩
  else if cls = "PKSother".data then ⟨0, 8/25, 17/25, 4⟩
  else if cls = "NRPS".data then ⟨0, 1, 0, 4⟩
  else if cls = "RiPPs".data then ⟨7/25, 71/100, 1/100, 1⟩
  else if cls = "Saccharides".data then ⟨0, 0, 1, 1⟩
  else if cls = "Terpene".data then ⟨1/5, 3/4, 1/20, 2⟩
  else if cls = "PKS-NRP_Hybrids".data then ⟨0, 39/50, 11/50, 1⟩
  else if cls = "Others".data then ⟨1/100, 97/100, 1/50, 4⟩
  else if cls = "mix".data then ⟨1/5, 3/4, 1/20, 2⟩
  else ⟨0, 0, 0, 0⟩

/-- Concrete fixture for the failure-isolation claim: clusters `c1`/`c2`
share domain `PX` with stored alignments, clusters `c5`/`c6` share
domain `PY` whose occurrence tags are absent from the alignment store
and whose fallback pairwise alignment fails. -/
def envC4 : BsEnv :=
  { anchor_domains := []
    BGCs := fun c d =>
      if c = "c1".data ∧ d = "PX".data then ["t1".data]
      else if c = "c2".data ∧ d = "PX".data then ["t2".data]
      else if c = "c5".data ∧ d = "PY".data then ["t5".data]
      else if c = "c6".data ∧ d = "PY".data then ["t6".data] else []
    AlignedDomainSequences := fun t =>
      if t = "t1".data ∨ t = "t2".data then some ['M'] else none
    fallbackAlign := fun _ _ => none
    metagenomic := false
    DomainList := fun c =>
      if c = "c1".data ∨ c = "c2".data then ["PX".data]
      else if c = "c5".data ∨ c = "c6".data then ["PY".data] else []
    group_dct := fun _ => ("grp".data, "desc".data)
    bgc_class_weight := fun _ => ⟨1, 0, 0, 1⟩ }

/-- Concrete fixture for the identity claim: one record `r1` with the
single domain type `PX` (one occurrence, aligned sequence `"M"`),
evaluated with the real class weight table. -/
def envC8 : BsEnv :=
  { anchor_domains := []
    BGCs := fun c d =>
      if c = "r1".data ∧ d = "PX".data then ["t1".data] else []
    AlignedDomainSequences := fun t =>
      if t = "t1".data then some ['M'] else none
    fallbackAlign := fun _ _ => none
    metagenomic := false
    DomainList := fun c => if c = "r1".data then ["PX".data] else []
    group_dct := fun _ => ("grp".data, "desc".data)
    bgc_class_weight := bgc_class_weight_table }

lemma matchesGaps_eq_countP (sA sB : List Char) :
    matchesGaps sA sB = ((sA.zip sB).countP matchPred, (sA.zip sB).countP gapPred) := by
  induction sA generalizing sB with
  | nil => cases sB <;> simp [matchesGaps]
  | cons a as ih =>
    cases sB with
    | nil => simp [matchesGaps]
    | cons b bs =>
      simp only [matchesGaps, List.zip_cons_cons, List.countP_cons, ih]
      by_cases hab : a = b
      · subst hab
        by_cases hgap : a = '-' <;> simp [matchPred, gapPred, hgap]
      · simp [matchPred, gapPred, hab]

lemma seqLengthOf_eq_min (sA sB : List Char) :
    seqLengthOf sA sB = min sA.length sB.length := by
  unfold seqLengthOf
  split_ifs with h
  · rfl
  · omega

lemma compositeDistance_fst (w : ClassWeights) (J D A : ℚ) :
    (compositeDistance w J D A).1
      = max 0 (1 - (w.Jaccardw * J + w.DDSw * D + w.AIw * A)) := by
  have hr : (1 : ℚ) - (w.Jaccardw * J + w.DDSw * D + w.AIw * A)
      = 1 - w.Jaccardw * J - w.DDSw * D - w.AIw * A := by ring
  simp only [compositeDistance]
  split_ifs with h
  · rw [hr]
    exact (max_eq_left h.le).symm
  · rw [hr]
    exact (max_eq_right (not_lt.mp h)).symm

lemma compositeDistance_snd (w : ClassWeights) (J D A : ℚ) :
    ((compositeDistance w J D A).2 = true
      ↔ 1 - (w.Jaccardw * J + w.DDSw * D + w.AIw * A) < -(1/1000000)) := by
  have hr : (1 : ℚ) - (w.Jaccardw * J + w.DDSw * D + w.AIw * A)
      = 1 - w.Jaccardw * J - w.DDSw * D - w.AIw * A := by ring
  simp only [compositeDistance]
  split_ifs with h
  · rw [hr]
    exact decide_eq_true_iff
  · rw [hr]
    constructor
    · intro hf
      exact absurd hf (by simp)
    · intro hlt
      exact absurd (lt_trans hlt (by norm_num)) h

lemma distMain_dist_eq (env : BsEnv) (w : ClassWeights) (s : PairSetup) :
    (distMain env w s).dist
      = (compositeDistance w (distMain env w s).jaccard (distMain env w s).dds
          (distMain env w s).ai).1 := by
  simp only [distMain]

lemma distMain_negFlag_eq (env : BsEnv) (w : ClassWeights) (s : PairSetup) :
    (distMain env w s).negFlag
      = (compositeDistance w (distMain env w s).jaccard (distMain env w s).dds
          (distMain env w s).ai).2 := by
  simp only [distMain]

lemma distMain_jaccard_eq (env : BsEnv) (w : ClassWeights) (s : PairSetup) :
    (distMain env w s).jaccard = jaccardOf s := by
  simp only [distMain]

lemma distMain_dds_eq (env : BsEnv) (w : ClassWeights) (s : PairSetup) :
    (distMain env w s).dds = 1 - (ddsParts env w s).1 := by
  simp only [distMain]

lemma distMain_ai_eq (env : BsEnv) (w : ClassWeights) (s : PairSetup) :
    (distMain env w s).ai = aiOf s := by
  simp only [distMain]

/-- C7: for every evaluated pair, the returned composite distance is
`max(0, 1 - (wJ*J + wD*D + wAI*AI))` computed from the returned
component scores and the class weight vector, and the
"Negative distance detected!" diagnostic fires exactly when the raw
value is below `-0.000001`. -/
theorem cluster_distance_weighted_sum (env : BsEnv) (a b : Ident)
    (la lb : List Ident) (cls : Ident) :
    (cluster_distance env a b la lb cls).dist
      = max 0 (1 - ((env.bgc_class_weight cls).Jaccardw * (cluster_distance env a b la lb cls).jaccard
          + (env.bgc_class_weight cls).DDSw * (cluster_distance env a b la lb cls).dds
          + (env.bgc_class_weight cls).AIw * (cluster_distance env a b la lb cls).ai))
    ∧ ((cluster_distance env a b la lb cls).negFlag = true
        ↔ 1 - ((env.bgc_class_weight cls).Jaccardw * (cluster_distance env a b la lb cls).jaccard
            + (env.bgc_class_weight cls).DDSw * (cluster_distance env a b la lb cls).dds
            + (env.bgc_class_weight cls).AIw * (cluster_distance env a b la lb cls).ai)
          < -(1/1000000)) := by
  by_cases h : (List.filter (fun d => decide (d ∈ lb.dedup)) la.dedup).isEmpty = true
  · have hcd : cluster_distance env a b la lb cls
        = { dist := 1, jaccard := 0, dds := 0, ai := 0, rDDSna := 1, rDDSa := 1,
            S := ((la.dedup.filter (fun d => !(isAnchor env d))).map
                    (fun d => (env.BGCs a d).length)).sum
              + ((lb.dedup.filter (fun d => !(isAnchor env d))).map
                    (fun d => (env.BGCs b d).length)).sum,
            Sa := ((la.dedup.filter (fun d => isAnchor env d)).map
                    (fun d => (env.BGCs a d).length)).sum
              + ((lb.dedup.filter (fun d => isAnchor env d)).map
                    (fun d => (env.BGCs b d).length)).sum,
            negFlag := false } := by
      simp only [cluster_distance]
      rw [if_pos h]
    rw [hcd]
    constructor
    · simp only [mul_zero, add_zero, sub_zero]
      exact (max_eq_right (by norm_num)).symm
    · simp only [mul_zero, add_zero, sub_zero]
      constructor
      · intro hf
        exact absurd hf (by simp)
      · intro hlt
        exact absurd hlt (by norm_num)
  · have hcd : cluster_distance env a b la lb cls
        = distMain env (env.bgc_class_weight cls) (mkSetup env a b la lb) := by
      simp only [cluster_distance]
      rw [if_neg h]
    rw [hcd, distMain_dist_eq, distMain_negFlag_eq]
    exact ⟨compositeDistance_fst _ _ _ _, compositeDistance_snd _ _ _ _⟩

/-- C6 (amended): a cost-matrix cell equals
`1 - matches / (L - g)` where `L` is the minimum of the two aligned
lengths (the comparison truncates to the shorter sequence and does not
fail), `matches` counts columns with equal non-gap characters and `g`
counts columns where both sequences carry the gap character; the
divisor is `L - g`, not the aligned length `L` itself. -/
theorem seqSim_closed_form (sA sB : List Char) :
    seqSim sA sB
      = 1 - (((sA.zip sB).countP matchPred : ℚ))
            / (((min sA.length sB.length : ℕ) : ℚ) - (((sA.zip sB).countP gapPred : ℚ))) := by
  unfold seqSim
  rw [matchesGaps_eq_countP, seqLengthOf_eq_min]

/-- C6 counterexample: on the aligned pair `"A-"`/`"A-"` the code's
cell value is `1 - 1/(2-1) = 0`, while dividing the single match by the
aligned length `2` as the claim states would give `1 - 1/2 = 1/2`. -/
theorem seqSim_counterexample :
    seqSim ['A', '-'] ['A', '-'] = 0 ∧ (0 : ℚ) ≠ 1 - 1 / 2 := by
  constructor
  · rw [seqSim_closed_form]
    rw [show List.countP matchPred (['A', '-'].zip ['A', '-']) = 1 from rfl,
      show List.countP gapPred (['A', '-'].zip ['A', '-']) = 1 from rfl]
    norm_num
  · norm_num

/-- C10 (amended): the divisor `seq_length - gaps` of a cost-matrix
cell is strictly positive whenever at least one compared column is not
a double gap; the division is well-defined exactly then (and the
counterexample shows it is zero when every compared column is a double
gap, including the empty comparison). -/
theorem identityDenom_pos (sA sB : List Char)
    (h : ∃ p ∈ sA.zip sB, ¬(p.1 = '-' ∧ p.2 = '-')) :
    0 < identityDenom sA sB := by
  obtain ⟨p, hp, hnp⟩ := h
  unfold identityDenom
  rw [matchesGaps_eq_countP, seqLengthOf_eq_min]
  have hle : (sA.zip sB).countP gapPred ≤ (sA.zip sB).length := List.countP_le_length _
  have hne : (sA.zip sB).countP gapPred ≠ (sA.zip sB).length := by
    intro he
    have := (List.countP_eq_length).mp he p hp
    simp only [gapPred, Bool.decide_and, Bool.and_eq_true, decide_eq_true_eq] at this
    exact hnp ⟨this.2, this.1 ▸ this.2⟩
  have hlen : (sA.zip sB).length = min sA.length sB.length := by
    rw [List.length_zip]
  omega

/-- C10 witness: concrete instance of `identityDenom_pos` at the
aligned pair `"M"`/`"M"`. -/
theorem identityDenom_pos_witness :
    (∃ p ∈ (['M'].zip ['M']), ¬(p.1 = '-' ∧ p.2 = '-')) ∧ 0 < identityDenom ['M'] ['M'] :=
  ⟨by decide, identityDenom_pos ['M'] ['M'] (by decide)⟩

/-- C10 counterexample: when both aligned sequences are the double gap
`"--"`, every compared column is a double gap and the divisor
`seq_length - gaps` is `0`, so the division-by-zero claim fails (Python
raises `ZeroDivisionError` here). -/
theorem identityDenom_counterexample :
    ¬ (0 < identityDenom ['-', '-'] ['-', '-']) := by decide

/-- Every intermediate state of the cutoff-removal loop is a sublist of
its input list. -/
lemma cutoffRemoveLoop_sublist (fuel : ℕ) :
    ∀ (l : List ℚ) (i : ℕ), (cutoffRemoveLoop fuel l i).Sublist l := by
  induction fuel with
  | zero => intro l i; exact List.Sublist.refl l
  | succ fuel ih =>
    intro l i
    unfold cutoffRemoveLoop
    split_ifs with h hc
    · exact (ih _ _).trans (List.erase_sublist _ _)
    · exact ih _ _
    · exact List.Sublist.refl l

/-- C9 (amended): the cutoff list actually used always contains `1.0`,
and every entry comes from the user-supplied values (plus the appended
`1.0`); the loop does not reliably remove non-positive values (removal
during iteration skips the element following a removed one) and never
removes values greater than `1`. -/
theorem cutoff_list_used_spec (cutoffs : List ℚ) :
    (1 : ℚ) ∈ cutoff_list_used cutoffs ∧ (cutoff_list_used cutoffs).Sublist (cutoffs ++ [1]) := by
  simp only [cutoff_list_used]
  split_ifs with h
  · exact ⟨h, (cutoffRemoveLoop_sublist _ _ _).trans (List.sublist_append_left _ _)⟩
  · constructor
    · simp
    · exact (cutoffRemoveLoop_sublist _ _ _).append_right [1]

/-- C9 counterexample: the user list `[0, -1]` leaves the negative
cutoff `-1` in the used list (removing `0` during iteration skips
`-1`), and the user list `[2]` keeps the cutoff `2 > 1`; so the used
list is not confined to `(0, 1]`. -/
theorem cutoff_list_used_counterexample :
    (cutoff_list_used [0, -1] = [-1, 1] ∧ (-1 : ℚ) ∈ cutoff_list_used [0, -1] ∧ (-1 : ℚ) < 0)
    ∧ (cutoff_list_used [2] = [2, 1] ∧ (2 : ℚ) ∈ cutoff_list_used [2] ∧ (1 : ℚ) < 2) := by
  decide

/-- C1: evaluation of the sample mix-reuse loop at the failing input.
The second sample's key is present in the broader (all-records mix)
table, and a run with only the first sample succeeds; but because the
source clears the mix table inside the per-sample loop (line 1457),
processing both samples raises `KeyError` on the second sample instead
of copying its value, aborting the run. -/
theorem sample_mix_reuse_fails_second_sample :
    dictLookup mixTableEx ("c3".data, "c4".data, "mix".data) = some 9
    ∧ sampleMixReuse mixTableEx [[("c1".data, "c2".data)]]
        = .ok [[(("c1".data, "c2".data, "mix".data), 7)]]
    ∧ sampleMixReuse mixTableEx samplesEx = .error "KeyError".data := by
  refine ⟨rfl, rfl, rfl⟩


lemma assignCost_one_one (c : ℕ → ℕ → ℚ) : assignCost 1 1 c = c 0 0 := by
  unfold assignCost
  rw [dif_pos ⟨one_pos, le_refl 1⟩]
  apply le_antisymm
  · have hm : (fun i : Fin 1 => i) ∈ injFuns 1 1 :=
      Finset.mem_filter.mpr ⟨Finset.mem_univ _, fun x y h => h⟩
    have h1 := Finset.inf'_le (fun f : Fin 1 → Fin 1 => ∑ i : Fin 1, c i.val (f i).val) hm
    rw [Fin.sum_univ_one] at h1
    exact h1
  · apply Finset.le_inf'
    intro f hf
    have h0 : f 0 = 0 := Subsingleton.elim _ _
    rw [Fin.sum_univ_one, h0]
    exact le_refl _


/-- C2: evaluation of the network row at a failing input.  For the
concrete pair `c1`/`c2` the raw distance is `1/4`, position 8 of the
edge line (index 7, before raw distance and squared similarity) holds
the score `-log2(raw distance)`, whose value is `2`; the claimed value
`-log2(similarity) = -log2(1 - 1/4)` is not `2`, so the code writes the
negative log of the distance, not of the similarity. -/
theorem network_score_is_log_of_distance :
    (cluster_distance envC2 "c1".data "c2".data ["PX".data] ["PX".data] "mix".data).dist = 1/4
    ∧ (generate_dist_matrix envC2 ("c1".data, "c2".data, "mix".data))[7]?
        = some (.score (some (1/4)))
    ∧ -(Real.logb 2 ((1/4 : ℚ) : ℝ)) = 2
    ∧ -(Real.logb 2 ((1 - (1/4 : ℚ) : ℚ) : ℝ)) ≠ 2 := by
  have hdist :
      (cluster_distance envC2 "c1".data "c2".data ["PX".data] ["PX".data] "mix".data).dist
        = 1/4 := by
    simp +decide [cluster_distance, distMain, jaccardOf, unsharedSum, sharedSumQ,
      sharedSumN, domainDifference, normTotal, ddsParts, aiOf, mkSetup, sumSeqDist,
      normalizationElement, unsharedOccurrences, resolvePair, tagA, tagB, assignCost_one_one,
      seqSim, matchesGaps, seqLengthOf, isAnchor, domainBase, compositeDistance, envC2]
    norm_num
  have h22 : (2 : ℝ) ^ (2 : ℝ) = 4 := by norm_num
  have h14 : (1/4 : ℝ) = 2 ^ (-2 : ℝ) := by
    rw [Real.rpow_neg (by norm_num), h22]
    norm_num
  have hlog : Real.logb 2 ((1/4 : ℝ)) = -2 := by
    rw [h14]
    exact Real.logb_rpow (by norm_num) (by norm_num)
  refine ⟨hdist, ?_, ?_, ?_⟩
  · have hnd : ¬(((envC2.DomainList "c1".data).length = 0)
        ∨ ((envC2.DomainList "c2".data).length = 0)) := by decide
    simp only [generate_dist_matrix]
    rw [if_neg hnd]
    simp only [List.getElem?_cons_succ, List.getElem?_cons_zero, Option.some.injEq]
    have hdist2 : (cluster_distance envC2 ['c', '1'] ['c', '2']
        (envC2.DomainList ['c', '1']) (envC2.DomainList ['c', '2']) ['m', 'i', 'x']).dist
          = 1/4 := hdist
    rw [hdist2]
    simp [logscoreArg]
  · rw [show ((1/4 : ℚ) : ℝ) = (1/4 : ℝ) by norm_num, hlog]
    norm_num
  · have hlt : Real.logb 2 (1/4 : ℝ) < Real.logb 2 (3/4 : ℝ) :=
      Real.logb_lt_logb (by norm_num) (by norm_num) (by norm_num)
    rw [hlog] at hlt
    rw [show ((1 - (1/4 : ℚ) : ℚ) : ℝ) = (3/4 : ℝ) by norm_num]
    intro hcontra
    have : Real.logb 2 (3/4 : ℝ) = -2 := by linarith
    rw [this] at hlt
    exact lt_irrefl _ hlt

/-- C3: evaluation of the degenerate sentinel row at a failing input.
For the pair `(c0, c2, "mix")` where `c0` has no identified domains,
the sentinel row has only 16 fields (a normal row has 17) because the
`bgc_class` element is missing, so `generate_network` keys the result
by `(c0, c2, group of c0)` instead of the canonical
`(record A, record B, class label)`, and the sentinel raw-distance
string `'1.0'` sits at index 7 — the score slot of a normal row — not
at the raw-distance slot 8. -/
theorem degenerate_row_misses_class :
    (generate_dist_matrix envC2 ("c0".data, "c2".data, "mix".data)).length = 16
    ∧ (generate_dist_matrix envC2 ("c1".data, "c2".data, "mix".data)).length = 17
    ∧ netKey (generate_dist_matrix envC2 ("c0".data, "c2".data, "mix".data))
        = (.s "c0".data, .s "c2".data, .s "grp".data)
    ∧ (NetVal.s "grp".data) ≠ (NetVal.s "mix".data)
    ∧ generate_network envC2 [("c0".data, "c2".data, "mix".data)]
        = [((.s "c0".data, .s "c2".data, .s "grp".data),
            [.s "desc".data, .s "grp".data, .s "desc".data,
             .s "0.0".data, .s "1.0".data, .s "0.0".data, .s "0.0".data, .s "0.0".data,
             .s "0.0".data, .s "1.0".data, .s "1.0".data, .s "1".data, .s "1".data])]
    ∧ (generate_dist_matrix envC2 ("c0".data, "c2".data, "mix".data))[7]?
        = some (.s "1.0".data) := by
  refine ⟨rfl, rfl, rfl, by decide, rfl, rfl⟩

/-- Any batch containing a pair on which the per-pair evaluation raises
is mapped to an error by `mapM` (the model of `pool.map` exception
propagation). -/
lemma exceptMapList_error_of_mem {α β ε : Type} (f : α → Except ε β) (l : List α) (p : α)
    (e : ε) (hp : p ∈ l) (he : f p = .error e) :
    ∃ e', exceptMapList f l = (Except.error e' : Except ε (List β)) := by
  induction l with
  | nil => cases hp
  | cons q qs ih =>
    rcases List.mem_cons.mp hp with hq | hq
    · subst hq
      refine ⟨e, ?_⟩
      simp only [exceptMapList, he]
      rfl
    · cases hfq : f q with
      | error e2 =>
        refine ⟨e2, ?_⟩
        simp only [exceptMapList, hfq]
        rfl
      | ok v =>
        obtain ⟨e', he'⟩ := ih hq
        refine ⟨e', ?_⟩
        simp only [exceptMapList, hfq, he']
        rfl

/-- C4 (amended): a failure evaluating one pair (missing pre-computed
alignment whose fallback realignment also fails) is not confined to
that pair's slot: the exception propagates through the scheduler
invocation and the whole batch aborts with an error, producing no result
table at all — no other pair receives its result.  (Only the
empty-domain-list degenerate case is handled by a sentinel row.) -/
theorem generate_network_E_aborts (env : BsEnv) (pairs : List (Ident × Ident × Ident))
    (p : Ident × Ident × Ident) (e : Ident)
    (hp : p ∈ pairs) (he : generate_dist_matrix_E env p = .error e) :
    ∃ e', generate_network_E env pairs = .error e' := by
  obtain ⟨e', he'⟩ := exceptMapList_error_of_mem (generate_dist_matrix_E env) pairs p e hp he
  exact ⟨e', by simp [generate_network_E, he']⟩

/-- C4 witness: concrete instance of `generate_network_E_aborts`: the
batch holding the failing pair `(c5, c6)` and the healthy pair
`(c1, c2)` aborts as a whole. -/
theorem generate_network_E_aborts_witness :
    (("c5".data, "c6".data, "mix".data)
        ∈ [(("c5".data, "c6".data, "mix".data) : Ident × Ident × Ident),
           ("c1".data, "c2".data, "mix".data)]
      ∧ generate_dist_matrix_E envC4 ("c5".data, "c6".data, "mix".data)
          = .error "alignment failure".data)
    ∧ ∃ e', generate_network_E envC4
        [("c5".data, "c6".data, "mix".data), ("c1".data, "c2".data, "mix".data)]
          = .error e' :=
  ⟨⟨by decide, rfl⟩,
    generate_network_E_aborts envC4
      [("c5".data, "c6".data, "mix".data), ("c1".data, "c2".data, "mix".data)]
      ("c5".data, "c6".data, "mix".data) "alignment failure".data (by decide) rfl⟩

/-- C4 counterexample: the claim as stated is false — with the failing
pair `(c5, c6)` first and the healthy pair `(c1, c2)` second in one
scheduler invocation, the invocation returns an error and the healthy
pair does not receive its computed result in any returned table. -/
theorem generate_network_E_counterexample :
    generate_dist_matrix_E envC4 ("c5".data, "c6".data, "mix".data)
        = .error "alignment failure".data
    ∧ generate_network_E envC4
        [("c5".data, "c6".data, "mix".data), ("c1".data, "c2".data, "mix".data)]
          = .error "alignment failure".data := by
  refine ⟨rfl, rfl⟩

/-- C8 counterexample: the claim fails for a single-domain record.  For
record `r1` with one domain occurrence and the real `"mix"` weight
vector `(0.2, 0.75, 0.05, 2.0)`, self-comparison yields Jaccard 1 and
DDS 1 but AI 0 (fewer than 2 domains), so the distance is
`1 - 0.2 - 0.75 = 0.05`, not `0.0`. -/
theorem cluster_distance_self_counterexample :
    (cluster_distance envC8 "r1".data "r1".data ["PX".data] ["PX".data] "mix".data).dist = 1/20
    ∧ (1/20 : ℚ) ≠ 0 := by
  constructor
  · have hJ : jaccardOf (mkSetup envC8 "r1".data "r1".data ["PX".data] ["PX".data]) = 1 := by
      simp +decide [jaccardOf, mkSetup, envC8]
    have hD : (ddsParts envC8 (bgc_class_weight_table "mix".data)
        (mkSetup envC8 "r1".data "r1".data ["PX".data] ["PX".data])).1 = 0 := by
      simp +decide [ddsParts, domainDifference, normTotal, unsharedSum, sharedSumQ,
        sharedSumN, sumSeqDist, normalizationElement, unsharedOccurrences, resolvePair,
        tagA, tagB, assignCost_one_one, seqSim, matchesGaps, seqLengthOf, isAnchor,
        domainBase, mkSetup, envC8]
    have hA : aiOf (mkSetup envC8 "r1".data "r1".data ["PX".data] ["PX".data]) = 0 := by
      simp +decide [aiOf, mkSetup, envC8]
    have hw : envC8.bgc_class_weight "mix".data = bgc_class_weight_table "mix".data := rfl
    have hmain : cluster_distance envC8 "r1".data "r1".data ["PX".data] ["PX".data] "mix".data
        = distMain envC8 (bgc_class_weight_table "mix".data)
            (mkSetup envC8 "r1".data "r1".data ["PX".data] ["PX".data]) := by
      simp only [cluster_distance, hw]
      rw [if_neg (by decide)]
    rw [hmain, distMain_dist_eq, distMain_jaccard_eq, distMain_dds_eq, distMain_ai_eq,
      hJ, hD, hA]
    rw [show bgc_class_weight_table "mix".data = ⟨1/5, 3/4, 1/20, 2⟩ from by
      simp +decide [bgc_class_weight_table]]
    simp only [compositeDistance]
    norm_num
  · norm_num

lemma matchesGaps_comm (sA sB : List Char) : matchesGaps sA sB = matchesGaps sB sA := by
  induction sA generalizing sB with
  | nil => cases sB <;> rfl
  | cons a as ih =>
    cases sB with
    | nil => rfl
    | cons b bs =>
      simp only [matchesGaps, ih bs]
      by_cases hab : a = b
      · subst hab
        rfl
      · have hba : ¬(b = a) := fun hh => hab hh.symm
        rw [if_neg hba, if_neg hab]

lemma seqLengthOf_comm (sA sB : List Char) : seqLengthOf sA sB = seqLengthOf sB sA := by
  rw [seqLengthOf_eq_min, seqLengthOf_eq_min, Nat.min_comm]

lemma seqSim_comm (sA sB : List Char) : seqSim sA sB = seqSim sB sA := by
  unfold seqSim
  rw [matchesGaps_comm, seqLengthOf_comm]

lemma matchesGaps_le (sA sB : List Char) :
    (matchesGaps sA sB).1 + (matchesGaps sA sB).2 ≤ seqLengthOf sA sB := by
  rw [matchesGaps_eq_countP, seqLengthOf_eq_min]
  have h1 : (sA.zip sB).countP matchPred
      ≤ (sA.zip sB).countP (fun p => !(gapPred p)) := by
    apply List.countP_mono_left
    intro p _ hp
    simp only [matchPred, Bool.decide_and, Bool.and_eq_true, decide_eq_true_eq] at hp
    simp [gapPred, hp.2]
  have h2 := List.length_eq_countP_add_countP gapPred (sA.zip sB)
  have h2c : List.countP (fun a => decide (¬ gapPred a = true)) (sA.zip sB)
      = List.countP (fun p => !(gapPred p)) (sA.zip sB) :=
    List.countP_congr (fun p _ => by simp)
  rw [h2c] at h2
  have h4 : (sA.zip sB).length = min sA.length sB.length := by rw [List.length_zip]
  omega

lemma gaps_le_seqLength (sA sB : List Char) :
    (matchesGaps sA sB).2 ≤ seqLengthOf sA sB := by
  have := matchesGaps_le sA sB
  omega

lemma seqSim_nonneg (sA sB : List Char) : 0 ≤ seqSim sA sB := by
  unfold seqSim
  set m := (matchesGaps sA sB).1 with hm
  set g := (matchesGaps sA sB).2 with hg
  set L := seqLengthOf sA sB with hL
  have hmg : m + g ≤ L := matchesGaps_le sA sB
  by_cases hz : L = g
  · rw [hz]
    simp
  · have hlt : g < L := lt_of_le_of_ne (by omega) (fun h => hz h.symm)
    have hpos : (0 : ℚ) < (L : ℚ) - (g : ℚ) := by
      have : (g : ℚ) < (L : ℚ) := by exact_mod_cast hlt
      linarith
    have hfrac : (m : ℚ) / ((L : ℚ) - (g : ℚ)) ≤ 1 := by
      rw [div_le_one hpos]
      have : (m : ℚ) ≤ (L : ℚ) - (g : ℚ) := by
        have : ((m : ℕ) : ℚ) + (g : ℚ) ≤ (L : ℚ) := by exact_mod_cast hmg
        linarith
      linarith
    linarith

lemma matchesGaps_self (sq : List Char) :
    matchesGaps sq sq
      = (sq.countP (fun ch => ch ≠ '-'), sq.countP (fun ch => ch = '-')) := by
  induction sq with
  | nil => rfl
  | cons c cs ih =>
    simp only [matchesGaps, ih, List.countP_cons]
    by_cases hc : c = '-' <;> simp [hc]

lemma seqSim_self (sq : List Char) (h : 0 < sq.countP (fun ch => ch ≠ '-')) :
    seqSim sq sq = 0 := by
  unfold seqSim
  rw [matchesGaps_self]
  simp only [seqLengthOf]
  rw [if_neg (by simp)]
  have hc : List.countP (fun ch => decide (ch ≠ '-')) sq
      = List.countP (fun a => !(decide (a = '-'))) sq :=
    List.countP_congr (fun ch _ => by simp)
  have hlen := List.length_eq_countP_add_countP (fun a => decide (a = '-')) sq
  have hlc : List.countP (fun a => decide (¬ (decide (a = '-')) = true)) sq
      = List.countP (fun a => !(decide (a = '-'))) sq :=
    List.countP_congr (fun p _ => by simp)
  rw [hlc] at hlen
  have hk : (0 : ℚ) < (List.countP (fun a => !(decide (a = '-'))) sq : ℚ) := by
    exact_mod_cast (hc ▸ h)
  rw [hc, hlen]
  push_cast
  have hcan : ((List.countP (fun a => decide (a = '-')) sq : ℚ)
      + (List.countP (fun a => !(decide (a = '-'))) sq : ℚ))
      - (List.countP (fun a => decide (a = '-')) sq : ℚ)
      = (List.countP (fun a => !(decide (a = '-'))) sq : ℚ) := by ring
  rw [hcan, div_self (ne_of_gt hk)]
  norm_num

lemma injFuns_mem_iff {m n : ℕ} (f : Fin m → Fin n) :
    f ∈ injFuns m n ↔ Function.Injective f := by
  simp [injFuns]

lemma sum_inv_of_inj {m : ℕ} (c : ℕ → ℕ → ℚ) (g : Fin m → Fin m)
    (hg : Function.Injective g) :
    ∃ f : Fin m → Fin m, Function.Injective f
      ∧ (∑ i : Fin m, c i.val (f i).val) = ∑ j : Fin m, c (g j).val j.val := by
  have hbij : Function.Bijective g := Finite.injective_iff_bijective.mp hg
  let e : Fin m ≃ Fin m := Equiv.ofBijective g hbij
  refine ⟨e.symm, e.symm.injective, ?_⟩
  have hre : ∀ j : Fin m, c (g j).val j.val = c (e j).val (e.symm (e j)).val := by
    intro j
    simp [e, Equiv.ofBijective_apply]
  rw [Finset.sum_congr rfl (fun j _ => hre j)]
  exact (Equiv.sum_comp e (fun i => c i.val (e.symm i).val)).symm

lemma square_inf_swap {m : ℕ} (c : ℕ → ℕ → ℚ) :
    (injFuns m m).inf' (injFuns_nonempty (le_refl m)) (fun f => ∑ i : Fin m, c i.val (f i).val)
      = (injFuns m m).inf' (injFuns_nonempty (le_refl m))
          (fun f => ∑ j : Fin m, c (f j).val j.val) := by
  apply le_antisymm
  · apply Finset.le_inf'
    intro g hg
    obtain ⟨f, hfinj, hfeq⟩ := sum_inv_of_inj c g ((injFuns_mem_iff g).mp hg)
    calc (injFuns m m).inf' (injFuns_nonempty (le_refl m))
          (fun f => ∑ i : Fin m, c i.val (f i).val)
        ≤ ∑ i : Fin m, c i.val (f i).val :=
          Finset.inf'_le _ ((injFuns_mem_iff f).mpr hfinj)
      _ = ∑ j : Fin m, c (g j).val j.val := hfeq
  · apply Finset.le_inf'
    intro g hg
    have hbij : Function.Bijective g := Finite.injective_iff_bijective.mp
      ((injFuns_mem_iff g).mp hg)
    let e : Fin m ≃ Fin m := Equiv.ofBijective g hbij
    have heq : (∑ j : Fin m, c (e.symm j).val j.val) = ∑ i : Fin m, c i.val (g i).val := by
      have hre : ∀ i : Fin m, c i.val (g i).val = c (e.symm (e i)).val (e i).val := by
        intro i
        simp [e, Equiv.ofBijective_apply]
      rw [Finset.sum_congr rfl (fun i _ => hre i)]
      exact (Equiv.sum_comp e (fun j => c (e.symm j).val j.val)).symm
    calc (injFuns m m).inf' (injFuns_nonempty (le_refl m))
          (fun f => ∑ j : Fin m, c (f j).val j.val)
        ≤ ∑ j : Fin m, c (e.symm j).val j.val :=
          Finset.inf'_le _ ((injFuns_mem_iff e.symm).mpr e.symm.injective)
      _ = ∑ i : Fin m, c i.val (g i).val := heq

lemma assignCost_flip (m n : ℕ) (c : ℕ → ℕ → ℚ) :
    assignCost m n c = assignCost n m (fun j i => c i j) := by
  unfold assignCost
  by_cases hm : 0 < m
  · by_cases hn : 0 < n
    · rcases lt_trichotomy m n with hlt | heq | hgt
      · rw [dif_pos ⟨hm, hlt.le⟩, dif_neg (by omega : ¬(0 < n ∧ n ≤ m)),
          dif_pos ⟨hm, hlt⟩]
      · subst heq
        rw [dif_pos ⟨hm, le_refl m⟩, dif_pos ⟨hm, le_refl m⟩]
        exact square_inf_swap c
      · rw [dif_neg (by omega : ¬(0 < m ∧ m ≤ n)), dif_pos ⟨hn, hgt⟩,
          dif_pos ⟨hn, hgt.le⟩]
    · rw [dif_neg (by omega : ¬(0 < m ∧ m ≤ n)), dif_neg (by omega : ¬(0 < n ∧ n < m)),
        dif_neg (by omega : ¬(0 < n ∧ n ≤ m)), dif_neg (by omega : ¬(0 < m ∧ m < n))]
  · rw [dif_neg (by omega : ¬(0 < m ∧ m ≤ n)), dif_neg (by omega : ¬(0 < n ∧ n < m)),
      dif_neg (by omega : ¬(0 < n ∧ n ≤ m)), dif_neg (by omega : ¬(0 < m ∧ m < n))]

lemma assignCost_nonneg (m n : ℕ) (c : ℕ → ℕ → ℚ) (h : ∀ i j, 0 ≤ c i j) :
    0 ≤ assignCost m n c := by
  unfold assignCost
  split_ifs with h1 h2
  · apply Finset.le_inf'
    intro f _
    exact Finset.sum_nonneg (fun i _ => h _ _)
  · apply Finset.le_inf'
    intro f _
    exact Finset.sum_nonneg (fun i _ => h _ _)
  · exact le_refl 0

lemma assignCost_le_diag (m : ℕ) (hm : 0 < m) (c : ℕ → ℕ → ℚ) :
    assignCost m m c ≤ ∑ i : Fin m, c i.val i.val := by
  unfold assignCost
  rw [dif_pos ⟨hm, le_refl m⟩]
  exact Finset.inf'_le _ ((injFuns_mem_iff id).mpr (fun x y hxy => hxy))

lemma assignCost_diag_zero (m : ℕ) (hm : 0 < m) (c : ℕ → ℕ → ℚ)
    (hpos : ∀ i j, 0 ≤ c i j) (hdiag : ∀ i, i < m → c i i = 0) :
    assignCost m m c = 0 := by
  apply le_antisymm
  · calc assignCost m m c ≤ ∑ i : Fin m, c i.val i.val := assignCost_le_diag m hm c
      _ = 0 := Finset.sum_eq_zero (fun i _ => hdiag i.val i.isLt)
  · exact assignCost_nonneg m m c hpos

lemma length_filter_memI (X Y : List Ident) :
    ((X.dedup.filter (fun d => d ∈ Y.dedup)).length) = (X.toFinset ∩ Y.toFinset).card := by
  have hnd : (X.dedup.filter (fun d => decide (d ∈ Y.dedup))).Nodup :=
    X.nodup_dedup.filter _
  rw [← List.toFinset_card_of_nodup hnd]
  congr 1
  ext a
  simp [List.mem_filter]

lemma perm_filter_memI (X Y : List Ident) :
    (X.dedup.filter (fun d => d ∈ Y.dedup)).Perm (Y.dedup.filter (fun d => d ∈ X.dedup)) := by
  rw [List.perm_ext_iff_of_nodup (X.nodup_dedup.filter _) (Y.nodup_dedup.filter _)]
  intro a
  simp [List.mem_filter, and_comm]

lemma length_filter_memP (X Y : List (Ident × Ident)) :
    ((X.dedup.filter (fun d => d ∈ Y.dedup)).length) = (X.toFinset ∩ Y.toFinset).card := by
  have hnd : (X.dedup.filter (fun d => decide (d ∈ Y.dedup))).Nodup :=
    X.nodup_dedup.filter _
  rw [← List.toFinset_card_of_nodup hnd]
  congr 1
  ext a
  simp [List.mem_filter]

lemma length_union_cardP (X Y : List (Ident × Ident))
    (hX : X.Nodup) (hY : Y.Nodup) :
    (X ++ Y.filter (fun p => p ∉ X)).length = (X.toFinset ∪ Y.toFinset).card := by
  have hnd : (X ++ Y.filter (fun p => decide (p ∉ X))).Nodup := by
    refine List.Nodup.append hX (hY.filter _) ?_
    intro a haX haF
    have := List.of_mem_filter haF
    simp at this
    exact this haX
  rw [← List.toFinset_card_of_nodup hnd]
  congr 1
  ext a
  simp [List.mem_filter]
  tauto

lemma tagA_swap (env : BsEnv) (s : PairSetup) (d : Ident) (i : ℕ) :
    tagA env s.swap d i = tagB env s d i := rfl

lemma tagB_swap (env : BsEnv) (s : PairSetup) (d : Ident) (j : ℕ) :
    tagB env s.swap d j = tagA env s d j := rfl

lemma resolvePair_symm (env : BsEnv)
    (hfb : ∀ ta tb, env.fallbackAlign ta tb
        = (env.fallbackAlign tb ta).map (fun p => (p.2, p.1)))
    (ta tb : Ident) :
    resolvePair env tb ta = ((resolvePair env ta tb).2, (resolvePair env ta tb).1) := by
  unfold resolvePair
  cases ha : env.AlignedDomainSequences ta <;> cases hb : env.AlignedDomainSequences tb
  · rw [hfb tb ta]
    cases env.fallbackAlign ta tb <;> simp
  · rw [hfb tb ta]
    cases env.fallbackAlign ta tb <;> simp
  · rw [hfb tb ta]
    cases env.fallbackAlign ta tb <;> simp
  · simp

lemma assignCost_congr (m n : ℕ) (c c' : ℕ → ℕ → ℚ) (h : ∀ i j, c i j = c' i j) :
    assignCost m n c = assignCost m n c' := by
  have he : c = c' := funext (fun i => funext (fun j => h i j))
  rw [he]

lemma normalizationElement_swap (s : PairSetup) (d : Ident) :
    normalizationElement s.swap d = normalizationElement s d := by
  unfold normalizationElement PairSetup.swap
  exact Nat.max_comm _ _

lemma sumSeqDist_swap (env : BsEnv) (s : PairSetup)
    (hfb : ∀ ta tb, env.fallbackAlign ta tb
        = (env.fallbackAlign tb ta).map (fun p => (p.2, p.1)))
    (d : Ident) :
    sumSeqDist env s.swap d = sumSeqDist env s d := by
  simp only [sumSeqDist, tagA_swap, tagB_swap]
  have hna : (PairSetup.swap s).Atop d - (PairSetup.swap s).Abot d
      = s.Btop d - s.Bbot d := rfl
  have hnb : (PairSetup.swap s).Btop d - (PairSetup.swap s).Bbot d
      = s.Atop d - s.Abot d := rfl
  rw [hna, hnb]
  have hcell : (fun i j => seqSim (resolvePair env (tagB env s d i) (tagA env s d j)).1
        (resolvePair env (tagB env s d i) (tagA env s d j)).2)
      = (fun i j => (fun a b => seqSim (resolvePair env (tagA env s d a) (tagB env s d b)).1
          (resolvePair env (tagA env s d a) (tagB env s d b)).2) j i) := by
    funext i j
    rw [resolvePair_symm env hfb (tagA env s d j) (tagB env s d i)]
    exact seqSim_comm _ _
  rw [hcell]
  rw [show (assignCost (s.Btop d - s.Bbot d) (s.Atop d - s.Abot d)
      (fun i j => (fun a b => seqSim (resolvePair env (tagA env s d a) (tagB env s d b)).1
          (resolvePair env (tagA env s d a) (tagB env s d b)).2) j i))
      = assignCost (s.Atop d - s.Abot d) (s.Btop d - s.Bbot d)
        (fun a b => seqSim (resolvePair env (tagA env s d a) (tagB env s d b)).1
          (resolvePair env (tagA env s d a) (tagB env s d b)).2) from
    (assignCost_flip _ _ _).symm]
  rw [abs_sub_comm]

lemma unsharedOccurrences_swap (env : BsEnv) (s : PairSetup)
    (hoccA : ∀ d, d ∉ s.A_domlist.dedup → env.BGCs s.A d = [])
    (hoccB : ∀ d, d ∉ s.B_domlist.dedup → env.BGCs s.B d = [])
    (d : Ident)
    (hd : (d ∈ s.A_domlist.dedup ∧ d ∉ s.B_domlist.dedup)
        ∨ (d ∈ s.B_domlist.dedup ∧ d ∉ s.A_domlist.dedup)) :
    unsharedOccurrences env s.swap d = unsharedOccurrences env s d := by
  unfold unsharedOccurrences
  simp only [PairSetup.swap]
  rcases hd with ⟨hA, hB⟩ | ⟨hB, hA⟩
  · have hBe : env.BGCs s.B d = [] := hoccB d hB
    by_cases hAe : env.BGCs s.A d = []
    · simp [hBe, hAe]
    · simp [hBe, hAe, List.isEmpty_iff]
  · have hAe : env.BGCs s.A d = [] := hoccA d hA
    by_cases hBe : env.BGCs s.B d = []
    · simp [hBe, hAe]
    · simp [hBe, hAe, List.isEmpty_iff]

lemma unsharedSum_swap (env : BsEnv) (s : PairSetup) (want : Bool)
    (hoccA : ∀ d, d ∉ s.A_domlist.dedup → env.BGCs s.A d = [])
    (hoccB : ∀ d, d ∉ s.B_domlist.dedup → env.BGCs s.B d = []) :
    unsharedSum env s.swap want = unsharedSum env s want := by
  unfold unsharedSum
  rw [show (PairSetup.swap s).A_domlist = s.B_domlist from rfl,
    show (PairSetup.swap s).B_domlist = s.A_domlist from rfl]
  rw [List.filter_append, List.filter_append, List.map_append, List.map_append,
    List.sum_append, List.sum_append]
  rw [add_comm]
  congr 1
  · apply congrArg List.sum
    apply List.map_congr_left
    intro d hd
    have hmem : d ∈ s.A_domlist.dedup ∧ d ∉ s.B_domlist.dedup := by
      have h1 := List.mem_of_mem_filter hd
      have h2 := List.mem_filter.mp h1
      constructor
      · exact List.mem_of_mem_filter h1
      · have := h2.2
        simpa using this
    rw [unsharedOccurrences_swap env s hoccA hoccB d (Or.inl hmem)]
  · apply congrArg List.sum
    apply List.map_congr_left
    intro d hd
    have hmem : d ∈ s.B_domlist.dedup ∧ d ∉ s.A_domlist.dedup := by
      have h1 := List.mem_of_mem_filter hd
      have h2 := List.mem_filter.mp h1
      constructor
      · exact List.mem_of_mem_filter h1
      · have := h2.2
        simpa using this
    rw [unsharedOccurrences_swap env s hoccA hoccB d (Or.inr hmem)]

lemma sharedSumQ_swap (env : BsEnv) (s : PairSetup) (want : Bool)
    (hI : s.intersect = s.A_domlist.dedup.filter (fun d => d ∈ s.B_domlist.dedup))
    (hfb : ∀ ta tb, env.fallbackAlign ta tb
        = (env.fallbackAlign tb ta).map (fun p => (p.2, p.1))) :
    sharedSumQ env s.swap want = sharedSumQ env s want := by
  unfold sharedSumQ
  rw [show (PairSetup.swap s).intersect
      = s.B_domlist.dedup.filter (fun d => d ∈ s.A_domlist.dedup) from rfl]
  have hmapL : ((s.B_domlist.dedup.filter (fun d => d ∈ s.A_domlist.dedup)).filter
        (fun d => isAnchor env d = want)).map (sumSeqDist env s.swap)
      = ((s.B_domlist.dedup.filter (fun d => d ∈ s.A_domlist.dedup)).filter
        (fun d => isAnchor env d = want)).map (sumSeqDist env s) :=
    List.map_congr_left (fun d _ => sumSeqDist_swap env s hfb d)
  rw [hmapL]
  have hperm : ((s.B_domlist.dedup.filter (fun d => d ∈ s.A_domlist.dedup)).filter
        (fun d => isAnchor env d = want)).Perm
      ((s.intersect).filter (fun d => isAnchor env d = want)) := by
    rw [hI]
    exact (perm_filter_memI s.B_domlist s.A_domlist).filter _
  exact (hperm.map _).sum_eq

lemma sharedSumN_swap (env : BsEnv) (s : PairSetup) (want : Bool)
    (hI : s.intersect = s.A_domlist.dedup.filter (fun d => d ∈ s.B_domlist.dedup)) :
    sharedSumN env s.swap want = sharedSumN env s want := by
  unfold sharedSumN
  rw [show (PairSetup.swap s).intersect
      = s.B_domlist.dedup.filter (fun d => d ∈ s.A_domlist.dedup) from rfl]
  have hmapL : ((s.B_domlist.dedup.filter (fun d => d ∈ s.A_domlist.dedup)).filter
        (fun d => isAnchor env d = want)).map (normalizationElement s.swap)
      = ((s.B_domlist.dedup.filter (fun d => d ∈ s.A_domlist.dedup)).filter
        (fun d => isAnchor env d = want)).map (normalizationElement s) :=
    List.map_congr_left (fun d _ => normalizationElement_swap s d)
  rw [hmapL]
  have hperm : ((s.B_domlist.dedup.filter (fun d => d ∈ s.A_domlist.dedup)).filter
        (fun d => isAnchor env d = want)).Perm
      ((s.intersect).filter (fun d => isAnchor env d = want)) := by
    rw [hI]
    exact (perm_filter_memI s.B_domlist s.A_domlist).filter _
  exact (hperm.map _).sum_eq

lemma normTotal_swap (env : BsEnv) (s : PairSetup) (want : Bool)
    (hI : s.intersect = s.A_domlist.dedup.filter (fun d => d ∈ s.B_domlist.dedup))
    (hoccA : ∀ d, d ∉ s.A_domlist.dedup → env.BGCs s.A d = [])
    (hoccB : ∀ d, d ∉ s.B_domlist.dedup → env.BGCs s.B d = []) :
    normTotal env s.swap want = normTotal env s want := by
  unfold normTotal
  rw [unsharedSum_swap env s want hoccA hoccB, sharedSumN_swap env s want hI]

lemma domainDifference_swap (env : BsEnv) (s : PairSetup) (want : Bool)
    (hI : s.intersect = s.A_domlist.dedup.filter (fun d => d ∈ s.B_domlist.dedup))
    (hoccA : ∀ d, d ∉ s.A_domlist.dedup → env.BGCs s.A d = [])
    (hoccB : ∀ d, d ∉ s.B_domlist.dedup → env.BGCs s.B d = [])
    (hfb : ∀ ta tb, env.fallbackAlign ta tb
        = (env.fallbackAlign tb ta).map (fun p => (p.2, p.1))) :
    domainDifference env s.swap want = domainDifference env s want := by
  unfold domainDifference
  rw [unsharedSum_swap env s want hoccA hoccB, sharedSumQ_swap env s want hI hfb]

lemma ddsParts_swap (env : BsEnv) (w : ClassWeights) (s : PairSetup)
    (hI : s.intersect = s.A_domlist.dedup.filter (fun d => d ∈ s.B_domlist.dedup))
    (hoccA : ∀ d, d ∉ s.A_domlist.dedup → env.BGCs s.A d = [])
    (hoccB : ∀ d, d ∉ s.B_domlist.dedup → env.BGCs s.B d = [])
    (hfb : ∀ ta tb, env.fallbackAlign ta tb
        = (env.fallbackAlign tb ta).map (fun p => (p.2, p.1))) :
    ddsParts env w s.swap = ddsParts env w s := by
  unfold ddsParts
  rw [domainDifference_swap env s false hI hoccA hoccB hfb,
    domainDifference_swap env s true hI hoccA hoccB hfb,
    normTotal_swap env s false hI hoccA hoccB,
    normTotal_swap env s true hI hoccA hoccB]

lemma jaccardOf_swap (s : PairSetup)
    (hI : s.intersect = s.A_domlist.dedup.filter (fun d => d ∈ s.B_domlist.dedup)) :
    jaccardOf s.swap = jaccardOf s := by
  unfold jaccardOf
  rw [show (PairSetup.swap s).intersect
      = s.B_domlist.dedup.filter (fun d => d ∈ s.A_domlist.dedup) from rfl,
    show (PairSetup.swap s).A_domlist = s.B_domlist from rfl,
    show (PairSetup.swap s).B_domlist = s.A_domlist from rfl]
  have hlen : (s.B_domlist.dedup.filter (fun d => d ∈ s.A_domlist.dedup)).length
      = s.intersect.length := by
    rw [hI, length_filter_memI, length_filter_memI, Finset.inter_comm]
  rw [hlen]
  ring_nf

lemma aiOf_swap (s : PairSetup) : aiOf s.swap = aiOf s := by
  unfold aiOf
  rw [show (PairSetup.swap s).A_domlist = s.B_domlist from rfl,
    show (PairSetup.swap s).B_domlist = s.A_domlist from rfl]
  by_cases h : s.A_domlist.length < 2 ∨ s.B_domlist.length < 2
  · rw [if_pos (Or.symm h), if_pos h]
  · rw [if_neg (fun hc => h (Or.symm hc)), if_neg h]
    simp only [adjacencyPairs]
    rw [length_filter_memP, length_filter_memP, Finset.inter_comm]
    rw [length_union_cardP _ _ (List.nodup_dedup _) (List.nodup_dedup _),
      length_union_cardP _ _ (List.nodup_dedup _) (List.nodup_dedup _),
      Finset.union_comm]

lemma distMain_swap (env : BsEnv) (w : ClassWeights) (s : PairSetup)
    (hI : s.intersect = s.A_domlist.dedup.filter (fun d => d ∈ s.B_domlist.dedup))
    (hoccA : ∀ d, d ∉ s.A_domlist.dedup → env.BGCs s.A d = [])
    (hoccB : ∀ d, d ∉ s.B_domlist.dedup → env.BGCs s.B d = [])
    (hfb : ∀ ta tb, env.fallbackAlign ta tb
        = (env.fallbackAlign tb ta).map (fun p => (p.2, p.1))) :
    distMain env w s.swap = distMain env w s := by
  simp only [distMain, jaccardOf_swap s hI, ddsParts_swap env w s hI hoccA hoccB hfb,
    aiOf_swap s, normTotal_swap env s false hI hoccA hoccB,
    normTotal_swap env s true hI hoccA hoccB]


lemma mkSetup_nonmeta_swap (env : BsEnv) (a b : Ident) (la lb : List Ident)
    (hmeta : env.metagenomic = false) :
    mkSetup env a b la lb = (mkSetup env b a lb la).swap := by
  simp only [mkSetup, hmeta]
  rfl

lemma mkSetup_meta_lt (env : BsEnv) (a b : Ident) (la lb : List Ident)
    (hmeta : env.metagenomic = true) (hlt : la.length < lb.length) :
    mkSetup env a b la lb = mkSetup env b a lb la := by
  have h1 : (if la.length < lb.length then a else b) = a := if_pos hlt
  have h2 : (if la.length < lb.length then b else a) = b := if_pos hlt
  have h3 : (if la.length < lb.length then la else lb) = la := if_pos hlt
  have h4 : (if la.length < lb.length then lb else la) = lb := if_pos hlt
  have hnlt : ¬ (lb.length < la.length) := by omega
  have k1 : (if lb.length < la.length then b else a) = a := if_neg hnlt
  have k2 : (if lb.length < la.length then a else b) = b := if_neg hnlt
  have k3 : (if lb.length < la.length then lb else la) = la := if_neg hnlt
  have k4 : (if lb.length < la.length then la else lb) = lb := if_neg hnlt
  simp only [mkSetup, hmeta, h1, h2, h3, h4, k1, k2, k3, k4]
  rw [if_pos trivial, if_pos trivial]

lemma mkSetup_meta_eqlen (env : BsEnv) (a b : Ident) (la lb : List Ident)
    (hmeta : env.metagenomic = true) (hlen : la.length = lb.length)
    (hca : ∀ d, (env.BGCs a d).length = la.count d)
    (hpos : 0 < (lb.dedup.filter (fun d => d ∈ la.dedup)).length) :
    mkSetup env a b la lb
      = { A := b, B := a, A_domlist := lb, B_domlist := la,
          intersect := lb.dedup.filter (fun d => d ∈ la.dedup),
          Abot := fun _ => 0, Atop := fun d => (env.BGCs b d).length,
          Bbot := fun _ => 0, Btop := fun d => (env.BGCs a d).length } := by
  have hnlt : ¬ (la.length < lb.length) := by omega
  have hA : (if la.length < lb.length then a else b) = b := if_neg hnlt
  have hB : (if la.length < lb.length then b else a) = a := if_neg hnlt
  have hAL : (if la.length < lb.length then la else lb) = lb := if_neg hnlt
  have hTB : (if la.length < lb.length then lb else la) = la := if_neg hnlt
  have hbw : bestWindow lb.dedup la lb.length
      = (0, lb.dedup.filter (fun d => d ∈ la.dedup)) := by
    unfold bestWindow
    rw [show la.length - lb.length + 1 = 1 by omega,
      show List.range 1 = [0] by decide]
    simp only [List.foldl_cons, List.foldl_nil, List.drop_zero, List.length_nil]
    rw [show lb.length = la.length from hlen.symm]
    simp only [List.take_length]
    rw [if_pos (by simpa using hpos)]
  have hft : (fun d : Ident => (env.BGCs a d).length) = fun d => List.count d la :=
    funext hca
  simp only [mkSetup, hmeta, hA, hB, hAL, hTB]
  rw [if_pos trivial, hbw, hft]
  simp only [List.take_zero, List.count_nil, List.drop_zero]
  rw [show lb.length = la.length from hlen.symm]
  simp [List.take_length]

lemma mkSetup_nonmeta_eval (env : BsEnv) (a b : Ident) (la lb : List Ident)
    (hmeta : env.metagenomic = false) :
    mkSetup env a b la lb
      = { A := a, B := b, A_domlist := la, B_domlist := lb,
          intersect := la.dedup.filter (fun d => d ∈ lb.dedup),
          Abot := fun _ => 0, Atop := fun d => (env.BGCs a d).length,
          Bbot := fun _ => 0, Btop := fun d => (env.BGCs b d).length } := by
  simp only [mkSetup, hmeta]
  rfl

/-- C5: the pair distance evaluator is symmetric.  For every
environment whose occurrence store is consistent with the two records'
domain lists (the occurrence list of a domain type has exactly as many
entries as the type has copies in the raw domain list, the data-model
invariant the source maintains when it builds `BGCs` and
`DomainList` from the same gbk parse) and whose fallback pairwise
aligner is symmetric, `cluster_distance` on `(A, B)` equals
`cluster_distance` on `(B, A)` in every field: distance, Jaccard, DDS,
adjacency index, both raw DDS ratios and both normalization totals.
This covers the degenerate disjoint-pair branch and both metagenomic
window cases (lines 310-334: distinct lengths are canonicalized to the
shorter record, equal lengths make the window the whole list). -/
theorem cluster_distance_symm (env : BsEnv) (a b : Ident) (la lb : List Ident)
    (cls : Ident)
    (hca : ∀ d, (env.BGCs a d).length = la.count d)
    (hcb : ∀ d, (env.BGCs b d).length = lb.count d)
    (hfb : ∀ ta tb, env.fallbackAlign ta tb
        = (env.fallbackAlign tb ta).map (fun p => (p.2, p.1))) :
    cluster_distance env a b la lb cls = cluster_distance env b a lb la cls := by
  have hlenEq : (la.dedup.filter (fun d => d ∈ lb.dedup)).length
      = (lb.dedup.filter (fun d => d ∈ la.dedup)).length := by
    rw [length_filter_memI, length_filter_memI, Finset.inter_comm]
  have isEmpty_congr : ∀ (x y : List Ident), x.length = y.length → x.isEmpty = y.isEmpty := by
    intro x y h
    cases x <;> cases y <;> simp_all
  have hEmptyEq := isEmpty_congr _ _ hlenEq
  have hOa : ∀ d, d ∉ la.dedup → env.BGCs a d = [] := by
    intro d hdm
    have h0 : la.count d = 0 :=
      List.count_eq_zero.mpr (fun hmem => hdm (List.mem_dedup.mpr hmem))
    have h1 : (env.BGCs a d).length = 0 := by rw [hca d, h0]
    exact List.length_eq_zero.mp h1
  have hOb : ∀ d, d ∉ lb.dedup → env.BGCs b d = [] := by
    intro d hdm
    have h0 : lb.count d = 0 :=
      List.count_eq_zero.mpr (fun hmem => hdm (List.mem_dedup.mpr hmem))
    have h1 : (env.BGCs b d).length = 0 := by rw [hcb d, h0]
    exact List.length_eq_zero.mp h1
  simp only [cluster_distance]
  by_cases hd : (la.dedup.filter (fun d => d ∈ lb.dedup)).isEmpty = true
  · have hd2 : (lb.dedup.filter (fun d => d ∈ la.dedup)).isEmpty = true := by
      rw [← hEmptyEq]; exact hd
    rw [if_pos hd, if_pos hd2]
    congr 1 <;> omega
  · have hd2 : ¬ (lb.dedup.filter (fun d => d ∈ la.dedup)).isEmpty = true := by
      rw [← hEmptyEq]; exact hd
    rw [if_neg hd, if_neg hd2]
    by_cases hmeta : env.metagenomic = true
    · by_cases hlen : la.length = lb.length
      · have hpos2 : 0 < (la.dedup.filter (fun d => d ∈ lb.dedup)).length := by
          rcases e : la.dedup.filter (fun d => d ∈ lb.dedup) with _ | ⟨x, xs⟩
          · rw [e] at hd; exact absurd rfl hd
          · simp
        have hpos1 : 0 < (lb.dedup.filter (fun d => d ∈ la.dedup)).length := by
          omega
        rw [mkSetup_meta_eqlen env a b la lb hmeta hlen hca hpos1,
          mkSetup_meta_eqlen env b a lb la hmeta hlen.symm hcb hpos2]
        exact distMain_swap env (env.bgc_class_weight cls)
          { A := a, B := b, A_domlist := la, B_domlist := lb,
            intersect := la.dedup.filter (fun d => d ∈ lb.dedup),
            Abot := fun _ => 0, Atop := fun d => (env.BGCs a d).length,
            Bbot := fun _ => 0, Btop := fun d => (env.BGCs b d).length }
          rfl hOa hOb hfb
      · have heq : mkSetup env a b la lb = mkSetup env b a lb la := by
          rcases Nat.lt_or_ge la.length lb.length with h | h
          · exact mkSetup_meta_lt env a b la lb hmeta h
          · exact (mkSetup_meta_lt env b a lb la hmeta (by omega)).symm
        rw [heq]
    · have hmeta' : env.metagenomic = false := by
        rcases Bool.eq_false_or_eq_true env.metagenomic with h | h
        · exact absurd h hmeta
        · exact h
      rw [mkSetup_nonmeta_eval env a b la lb hmeta',
        mkSetup_nonmeta_eval env b a lb la hmeta']
      exact distMain_swap env (env.bgc_class_weight cls)
        { A := b, B := a, A_domlist := lb, B_domlist := la,
          intersect := lb.dedup.filter (fun d => d ∈ la.dedup),
          Abot := fun _ => 0, Atop := fun d => (env.BGCs b d).length,
          Bbot := fun _ => 0, Btop := fun d => (env.BGCs a d).length }
        rfl hOb hOa hfb

/-- Closed instance of the symmetry theorem: the concrete two-record
fixture, with the consistency and fallback-symmetry hypotheses
discharged by evaluation. -/
theorem cluster_distance_symm_witness :
    cluster_distance envC2 "c1".data "c2".data ["PX".data] ["PX".data] "mix".data
      = cluster_distance envC2 "c2".data "c1".data ["PX".data] ["PX".data] "mix".data :=
  cluster_distance_symm envC2 "c1".data "c2".data ["PX".data] ["PX".data] "mix".data
    (by
      intro d
      by_cases h : d = "PX".data <;>
        simp +decide [envC2, h, List.count_cons, List.count_nil])
    (by
      intro d
      by_cases h : d = "PX".data <;>
        simp +decide [envC2, h, List.count_cons, List.count_nil])
    (fun ta tb => rfl)

lemma unsharedSum_self_eq_zero (env : BsEnv) (s : PairSetup)
    (h : s.A_domlist = s.B_domlist) (want : Bool) : unsharedSum env s want = 0 := by
  unfold unsharedSum
  rw [h]
  rw [show s.B_domlist.dedup.filter (fun d => d ∉ s.B_domlist.dedup) = []
    from List.filter_eq_nil_iff.mpr (fun x hx => by simp [hx])]
  rfl

lemma sharedSumQ_eq_zero (env : BsEnv) (s : PairSetup) (want : Bool)
    (h : ∀ d ∈ s.intersect, sumSeqDist env s d = 0) : sharedSumQ env s want = 0 := by
  unfold sharedSumQ
  apply List.sum_eq_zero
  intro q hq
  rw [List.mem_map] at hq
  obtain ⟨d, hd, rfl⟩ := hq
  exact h d (List.mem_of_mem_filter hd)

lemma ddsParts_fst_zero (env : BsEnv) (w : ClassWeights) (s : PairSetup)
    (h0 : domainDifference env s false = 0) (h1 : domainDifference env s true = 0) :
    (ddsParts env w s).1 = 0 := by
  simp only [ddsParts]
  rw [h0, h1]
  split_ifs <;> simp

lemma aiOf_self (s : PairSetup) (h : s.A_domlist = s.B_domlist) :
    aiOf s = if 2 ≤ s.B_domlist.length then 1 else 0 := by
  unfold aiOf
  rw [h]
  by_cases h2 : s.B_domlist.length < 2
  · rw [if_pos (Or.inl h2), if_neg (by omega)]
  · rw [if_neg (by omega : ¬ (s.B_domlist.length < 2 ∨ s.B_domlist.length < 2)),
      if_pos (by omega : 2 ≤ s.B_domlist.length)]
    show (((adjacencyPairs s.B_domlist).filter
          (fun p => p ∈ adjacencyPairs s.B_domlist)).length : ℚ)
        / (((adjacencyPairs s.B_domlist)
            ++ (adjacencyPairs s.B_domlist).filter
              (fun p => p ∉ adjacencyPairs s.B_domlist)).length : ℚ) = 1
    rw [show (adjacencyPairs s.B_domlist).filter (fun p => p ∈ adjacencyPairs s.B_domlist)
        = adjacencyPairs s.B_domlist
      from List.filter_eq_self.mpr (fun x hx => by simpa using hx)]
    rw [show (adjacencyPairs s.B_domlist).filter (fun p => p ∉ adjacencyPairs s.B_domlist) = []
      from List.filter_eq_nil_iff.mpr (fun x hx => by simp [hx])]
    rw [List.append_nil]
    obtain ⟨x, y, t, hxyt⟩ : ∃ x y t, s.B_domlist = x :: y :: t := by
      rcases e : s.B_domlist with _ | ⟨x, _ | ⟨y, t⟩⟩
      · rw [e] at h2
        exact absurd (by simp) h2
      · rw [e] at h2
        exact absurd (by simp) h2
      · exact ⟨x, y, t, rfl⟩
    have hPne : adjacencyPairs s.B_domlist ≠ [] := by
      rw [hxyt]
      intro hcon
      simp [adjacencyPairs, List.dedup_eq_nil] at hcon
    have hQ : (0:ℚ) < ((adjacencyPairs s.B_domlist).length : ℚ) := by
      exact_mod_cast List.length_pos.mpr hPne
    exact div_self (ne_of_gt hQ)

lemma sumSeqDist_self_zero (env : BsEnv) (s : PairSetup) (d : Ident)
    (hA0 : s.Abot d = 0) (hB0 : s.Bbot d = 0)
    (hAt : s.Atop d = (env.BGCs s.A d).length)
    (hBt : s.Btop d = (env.BGCs s.A d).length)
    (hAB : s.B = s.A)
    (hpos : 0 < (env.BGCs s.A d).length)
    (hal : ∀ t ∈ env.BGCs s.A d, ∃ sq, env.AlignedDomainSequences t = some sq
        ∧ 0 < sq.countP (fun ch => ch ≠ '-')) :
    sumSeqDist env s d = 0 := by
  unfold sumSeqDist tagA tagB
  rw [hA0, hB0, hAt, hBt, hAB]
  simp only [Nat.sub_zero, Nat.add_zero, sub_self, abs_zero, zero_add]
  refine assignCost_diag_zero _ hpos _ (fun i j => seqSim_nonneg _ _) ?_
  intro i hi
  obtain ⟨sq, hsq, hgap⟩ := hal ((env.BGCs s.A d).getD i []) (by
    rw [List.getD_eq_get _ _ hi]
    exact List.get_mem _ _ _)
  show seqSim (resolvePair env ((env.BGCs s.A d).getD i []) ((env.BGCs s.A d).getD i [])).1
      (resolvePair env ((env.BGCs s.A d).getD i []) ((env.BGCs s.A d).getD i [])).2 = 0
  rw [show resolvePair env ((env.BGCs s.A d).getD i []) ((env.BGCs s.A d).getD i [])
      = (sq, sq) from by unfold resolvePair; rw [hsq]]
  exact seqSim_self sq hgap

/-- C8: amended identity property of the evaluator on a self-pair.  For
a record with a non-empty domain list, a consistent occurrence store and
aligned sequences that exist and contain at least one non-gap character
for every occurrence tag, `cluster_distance(A, A)` returns Jaccard `1`,
DDS-similarity `1`, adjacency index `1` exactly when the record has at
least two domains (and `0` otherwise), and distance
`max(0, 1 - (Jw + DDSw + AIw*AI))` — which is `0` only when the class
weights make `Jw + DDSw + AIw*AI = 1`.  The original claim's
unconditional `distance 0.0` is refuted separately: a single-domain
record has `AI = 0`, so under any weight vector whose components sum
to `1` with `AIw > 0` — such as the source's `mix` vector
`(0.2, 0.75, 0.05)` (line 1040) — the self-distance is the positive
`AIw` remainder; a vector with `AIw = 0` and `Jw + DDSw = 1`, such as
`NRPS` `(0.0, 1.0, 0.0)` (line 1026), still gives self-distance `0`
for a single-domain record. -/
theorem cluster_distance_self (env : BsEnv) (a : Ident) (la : List Ident) (cls : Ident)
    (hne : la ≠ [])
    (hocc : ∀ d, (env.BGCs a d).length = la.count d)
    (halign : ∀ t d, d ∈ la → t ∈ env.BGCs a d →
      ∃ sq, env.AlignedDomainSequences t = some sq
        ∧ 0 < sq.countP (fun ch => ch ≠ '-')) :
    (cluster_distance env a a la la cls).jaccard = 1
    ∧ (cluster_distance env a a la la cls).dds = 1
    ∧ (cluster_distance env a a la la cls).ai = (if 2 ≤ la.length then (1:ℚ) else 0)
    ∧ (cluster_distance env a a la la cls).dist
        = max 0 (1 - ((env.bgc_class_weight cls).Jaccardw
            + (env.bgc_class_weight cls).DDSw
            + (env.bgc_class_weight cls).AIw * (if 2 ≤ la.length then (1:ℚ) else 0))) := by
  have hdne : la.dedup ≠ [] := by simpa [List.dedup_eq_nil] using hne
  have hfilter : la.dedup.filter (fun d => d ∈ la.dedup) = la.dedup :=
    List.filter_eq_self.mpr (fun x hx => by simpa using hx)
  have hpos : 0 < (la.dedup.filter (fun d => d ∈ la.dedup)).length := by
    rw [hfilter]
    exact List.length_pos.mpr hdne
  have hnotEmpty : ¬ (la.dedup.filter (fun d => d ∈ la.dedup)).isEmpty = true := by
    rcases e : la.dedup.filter (fun d => d ∈ la.dedup) with _ | ⟨x, xs⟩
    · rw [e] at hpos
      simp at hpos
    · simp
  have hR : mkSetup env a a la la
      = { A := a, B := a, A_domlist := la, B_domlist := la,
          intersect := la.dedup.filter (fun d => d ∈ la.dedup),
          Abot := fun _ => 0, Atop := fun d => (env.BGCs a d).length,
          Bbot := fun _ => 0, Btop := fun d => (env.BGCs a d).length } := by
    by_cases hmeta : env.metagenomic = true
    · exact mkSetup_meta_eqlen env a a la la hmeta rfl hocc hpos
    · have hmeta' : env.metagenomic = false := by
        rcases Bool.eq_false_or_eq_true env.metagenomic with h | h
        · exact absurd h hmeta
        · exact h
      exact mkSetup_nonmeta_eval env a a la la hmeta'
  have hmain : cluster_distance env a a la la cls
      = distMain env (env.bgc_class_weight cls) (mkSetup env a a la la) := by
    simp only [cluster_distance]
    rw [if_neg hnotEmpty]
  have hun : ∀ w', unsharedSum env (mkSetup env a a la la) w' = 0 := by
    intro w'
    rw [hR]
    exact unsharedSum_self_eq_zero env _ rfl w'
  have hsh : ∀ w', sharedSumQ env (mkSetup env a a la la) w' = 0 := by
    intro w'
    rw [hR]
    refine sharedSumQ_eq_zero env _ w' ?_
    intro d hd
    have hdla : d ∈ la := List.mem_dedup.mp (List.mem_of_mem_filter hd)
    have hposd : 0 < (env.BGCs a d).length := by
      rw [hocc d]
      have hnz : la.count d ≠ 0 := fun h0 => (List.count_eq_zero.mp h0) hdla
      omega
    exact sumSeqDist_self_zero env _ d rfl rfl rfl rfl rfl hposd
      (fun t ht => halign t d hdla ht)
  have hdd : ∀ w', domainDifference env (mkSetup env a a la la) w' = 0 := by
    intro w'
    unfold domainDifference
    rw [hun w', hsh w']
    norm_num
  have hD : (ddsParts env (env.bgc_class_weight cls) (mkSetup env a a la la)).1 = 0 :=
    ddsParts_fst_zero env _ _ (hdd false) (hdd true)
  have hJ : jaccardOf (mkSetup env a a la la) = 1 := by
    rw [hR]
    show ((la.dedup.filter (fun d => d ∈ la.dedup)).length : ℚ)
        / ((la.dedup.length : ℚ) + (la.dedup.length : ℚ)
          - ((la.dedup.filter (fun d => d ∈ la.dedup)).length : ℚ)) = 1
    rw [hfilter]
    have hn : (0:ℚ) < (la.dedup.length : ℚ) := by
      exact_mod_cast List.length_pos.mpr hdne
    rw [show (la.dedup.length : ℚ) + (la.dedup.length : ℚ) - (la.dedup.length : ℚ)
        = (la.dedup.length : ℚ) from by ring]
    exact div_self (ne_of_gt hn)
  have hA : aiOf (mkSetup env a a la la) = if 2 ≤ la.length then (1:ℚ) else 0 := by
    rw [hR]
    exact aiOf_self _ rfl
  refine ⟨?_, ?_, ?_, ?_⟩
  · rw [hmain, distMain_jaccard_eq]
    exact hJ
  · rw [hmain, distMain_dds_eq, hD]
    norm_num
  · rw [hmain, distMain_ai_eq]
    exact hA
  · rw [hmain, distMain_dist_eq, distMain_jaccard_eq, distMain_dds_eq, distMain_ai_eq,
      hJ, hD, hA, compositeDistance_fst]
    congr 1
    ring

/-- Closed instance of the amended self-comparison theorem at the
single-domain fixture: the hypotheses are discharged by evaluation, and
the adjacency index is `0` because the record has one domain. -/
theorem cluster_distance_self_witness :
    (cluster_distance envC8 "r1".data "r1".data ["PX".data] ["PX".data] "mix".data).jaccard = 1
    ∧ (cluster_distance envC8 "r1".data "r1".data ["PX".data] ["PX".data] "mix".data).dds = 1
    ∧ (cluster_distance envC8 "r1".data "r1".data ["PX".data] ["PX".data] "mix".data).ai
        = (if 2 ≤ (["PX".data] : List Ident).length then (1:ℚ) else 0)
    ∧ (cluster_distance envC8 "r1".data "r1".data ["PX".data] ["PX".data] "mix".data).dist
        = max 0 (1 - ((envC8.bgc_class_weight "mix".data).Jaccardw
            + (envC8.bgc_class_weight "mix".data).DDSw
            + (envC8.bgc_class_weight "mix".data).AIw
              * (if 2 ≤ (["PX".data] : List Ident).length then (1:ℚ) else 0))) :=
  cluster_distance_self envC8 "r1".data ["PX".data] "mix".data
    (by decide)
    (by
      intro d
      by_cases h : d = "PX".data <;>
        simp +decide [envC8, h, List.count_cons, List.count_nil])
    (by
      intro t d hd ht
      have hd' : d = "PX".data := by simpa using hd
      subst hd'
      have ht' : t = "t1".data := by
        simp +decide [envC8] at ht
        exact ht
      subst ht'
      exact ⟨['M'], by simp +decide [envC8], by decide⟩)
